import Mathlib

/-!
# House price predictor (`app.js`): form validation, price estimate, price formatting

A shallow embedding of the class `HousePricePrediction` of `app.js`.

Modelling conventions.

* A JavaScript string is a Lean `String`; `undefined` (a missing property, a missing
  DOM element) is `none`.
* A JavaScript Number is an IEEE 754 binary64 value: `NaN` is `none`, any other value is
  `some v` with `v` an infinity or a finite value, held as the rational number it stands
  for.  Every arithmetic operation rounds its exact result to the nearest binary64 number
  (a tie going to the even significand) and overflows to an infinity.  The sign of zero is
  not tracked.
* Every call of `Math.random()` is an explicit argument `r`, the rational value of the
  Number it returns, with `0 ≤ r < 1`.
* The DOM form is reduced to what the code reads from it: for each name the value of the
  first control carrying it, and the radio buttons of the group `furnishingstatus`.
-/

namespace HousePredictor

/-! ## Binary64 arithmetic -/

/-- Floor of the binary logarithm of a positive natural number, by halving. -/
def log2Fuel : Nat → Nat → Nat
  | 0, _ => 0
  | fuel + 1, n => if n < 2 then 0 else log2Fuel fuel (n / 2) + 1

/-- Floor of the binary logarithm of a positive natural number. -/
def natLog2 (n : Nat) : Nat := log2Fuel n n

/-- The binary exponent of a nonzero rational: the `e` with `2^e ≤ |x| < 2^(e+1)`. -/
def exponent (x : ℚ) : ℤ :=
  let a := x.num.natAbs
  let b := x.den
  let la := natLog2 a
  let lb := natLog2 b
  if 2 ^ la * b ≤ a * 2 ^ lb then (la : ℤ) - lb else (la : ℤ) - lb - 1

/-- Rounding to the nearest integer, a tie going to the even one. -/
def roundHalfEven (y : ℚ) : ℤ :=
  let f := ⌊y⌋
  if y - f < 1 / 2 then f
  else if 1 / 2 < y - f then f + 1
  else if f % 2 = 0 then f else f + 1

/-- The spacing of the binary64 numbers around `x`: 53 significant bits, and the fixed
spacing `2^-1074` of the subnormal range. -/
def ulp (x : ℚ) : ℚ := (2 : ℚ) ^ (max (exponent x) (-1022) - 52)

/-- The binary64 number nearest to `x`, a tie going to the even significand
(round-to-nearest-even), before the test for overflow. -/
def fl (x : ℚ) : ℚ := roundHalfEven (x / ulp x) * ulp x

/-- A Number other than `NaN`: an infinity or a finite value. -/
inductive Value where
  | negInf : Value
  | fin (q : ℚ) : Value
  | posInf : Value
deriving DecidableEq

/-- A JavaScript Number; `none` is `NaN`. -/
abbrev JSNumber := Option Value

/-- The comparison `≤` of two Numbers that are not `NaN`. -/
def Value.leb : Value → Value → Bool
  | .negInf, _ => true
  | .fin _, .negInf => false
  | .fin a, .fin b => decide (a ≤ b)
  | .fin _, .posInf => true
  | .posInf, .posInf => true
  | .posInf, _ => false

/-- The comparison `<` of two Numbers that are not `NaN`. -/
def Value.ltb : Value → Value → Bool
  | .negInf, .negInf => false
  | .negInf, _ => true
  | .fin a, .fin b => decide (a < b)
  | .fin _, .posInf => true
  | .fin _, .negInf => false
  | .posInf, _ => false

instance : LE Value := ⟨fun a b => Value.leb a b = true⟩

instance : LT Value := ⟨fun a b => Value.ltb a b = true⟩

instance (a b : Value) : Decidable (a ≤ b) := inferInstanceAs (Decidable (Value.leb a b = true))

instance (a b : Value) : Decidable (a < b) := inferInstanceAs (Decidable (Value.ltb a b = true))

/-- The binary64 value of an exact result: the nearest binary64 number, or an infinity
when that number would be `2^1024` or more in magnitude. -/
def round64 (x : ℚ) : Value :=
  let y := fl x
  if (2 : ℚ) ^ 1024 ≤ y then Value.posInf
  else if y ≤ -(2 : ℚ) ^ 1024 then Value.negInf
  else Value.fin y

/-- The Number written by a decimal literal of the code, such as `0.9`. -/
def lit (q : ℚ) : JSNumber := some (round64 q)

/-- The Number nearest to an integer. -/
def ofInt (n : ℤ) : JSNumber := some (round64 n)

/-- The operator `+` on Numbers. -/
def numAdd (a b : JSNumber) : JSNumber :=
  match a, b with
  | some (.fin x), some (.fin y) => some (round64 (x + y))
  | some .posInf, some .negInf => none
  | some .negInf, some .posInf => none
  | some .posInf, some _ => some .posInf
  | some _, some .posInf => some .posInf
  | some .negInf, some _ => some .negInf
  | some _, some .negInf => some .negInf
  | _, _ => none

/-- The operator `-` on Numbers. -/
def numSub (a b : JSNumber) : JSNumber :=
  match a, b with
  | some (.fin x), some (.fin y) => some (round64 (x - y))
  | some .posInf, some .posInf => none
  | some .negInf, some .negInf => none
  | some .posInf, some _ => some .posInf
  | some _, some .negInf => some .posInf
  | some .negInf, some _ => some .negInf
  | some _, some .posInf => some .negInf
  | _, _ => none

/-- The product of an infinity with a finite factor or with an infinity: the infinity of
the sign of the product, `NaN` for a zero factor. -/
def infTimes (positive : Bool) (v : Value) : JSNumber :=
  match v with
  | .fin y =>
    if y = 0 then none
    else if (0 < y) = positive then some .posInf else some .negInf
  | .posInf => if positive then some .posInf else some .negInf
  | .negInf => if positive then some .negInf else some .posInf

/-- The operator `*` on Numbers. -/
def numMul (a b : JSNumber) : JSNumber :=
  match a, b with
  | some (.fin x), some (.fin y) => some (round64 (x * y))
  | some .posInf, some v => infTimes true v
  | some .negInf, some v => infTimes false v
  | some v, some .posInf => infTimes true v
  | some v, some .negInf => infTimes false v
  | _, _ => none

/-- The operator `/` on Numbers. -/
def numDiv (a b : JSNumber) : JSNumber :=
  match a, b with
  | some (.fin x), some (.fin y) =>
    if y = 0 then
      if x = 0 then none else if 0 < x then some .posInf else some .negInf
    else some (round64 (x / y))
  | some (.fin _), some _ => some (.fin 0)
  | some .posInf, some (.fin y) => if 0 ≤ y then some .posInf else some .negInf
  | some .negInf, some (.fin y) => if 0 ≤ y then some .negInf else some .posInf
  | _, _ => none

/-- The operator `%` on Numbers: the exact remainder, with the sign of the dividend. -/
def numMod (a b : JSNumber) : JSNumber :=
  match a, b with
  | some (.fin x), some (.fin y) =>
    if y = 0 then none
    else
      let q := x / y
      let t : ℤ := if 0 ≤ q then ⌊q⌋ else ⌈q⌉
      some (.fin (x - y * t))
  | some (.fin x), some _ => some (.fin x)
  | _, _ => none

/-- The operator `<` on Numbers; a comparison with `NaN` is false. -/
def numLt (a b : JSNumber) : Bool :=
  match a, b with
  | some x, some y => x.ltb y
  | _, _ => false

/-- The operator `>` on Numbers. -/
def numGt (a b : JSNumber) : Bool := numLt b a

/-- The operator `<=` on Numbers; a comparison with `NaN` is false. -/
def numLe (a b : JSNumber) : Bool :=
  match a, b with
  | some x, some y => x.leb y
  | _, _ => false

/-- The operator `>=` on Numbers. -/
def numGe (a b : JSNumber) : Bool := numLe b a

/-- The function `Math.round`: the nearest integer, a tie going up. -/
def mathRound (a : JSNumber) : JSNumber :=
  match a with
  | some (.fin x) => some (.fin (⌊x + 1 / 2⌋ : ℤ))
  | other => other

/-! ## Strings: `trim` and `parseInt` -/

/-- White space and line terminators of ECMAScript (`StrWhiteSpaceChar`), the characters
removed by `String.prototype.trim` and skipped by `parseInt`. -/
def isStrWhiteSpaceChar (c : Char) : Bool :=
  let n := c.toNat
  n == 9 || n == 10 || n == 11 || n == 12 || n == 13 || n == 32 || n == 160 ||
  n == 0x1680 || (0x2000 ≤ n && n ≤ 0x200A) || n == 0x2028 || n == 0x2029 ||
  n == 0x202F || n == 0x205F || n == 0x3000 || n == 0xFEFF

/-- The function `String.prototype.trim` on the characters of a string. -/
def jsTrimChars (cs : List Char) : List Char :=
  ((cs.dropWhile isStrWhiteSpaceChar).reverse.dropWhile isStrWhiteSpaceChar).reverse

/-- The function `String.prototype.trim`. -/
def jsTrim (s : String) : String := ⟨jsTrimChars s.data⟩

/-- Value of a character as a digit in a radix up to 36, as `parseInt` reads it. -/
def digitValue (c : Char) : Option Nat :=
  let n := c.toNat
  if 48 ≤ n ∧ n ≤ 57 then some (n - 48)
  else if 97 ≤ n ∧ n ≤ 122 then some (n - 97 + 10)
  else if 65 ≤ n ∧ n ≤ 90 then some (n - 65 + 10)
  else none

/-- The longest run of digits of the radix at the start, as digit values. -/
def takeDigits (radix : Nat) : List Char → List Nat
  | [] => []
  | c :: cs =>
    match digitValue c with
    | some v => if v < radix then v :: takeDigits radix cs else []
    | none => []

/-- The number written by a list of digit values, most significant first. -/
def digitsValue (radix : Nat) (ds : List Nat) : Nat :=
  ds.foldl (fun acc v => acc * radix + v) 0

/-- The function `parseInt(string)` without a radix, on the characters of the string: skip
leading white space, read a sign, read a `0x`/`0X` mark (radix 16, otherwise radix 10),
read the longest run of digits; `NaN` when there is no digit, otherwise the Number nearest
to the integer read. -/
def parseIntChars (cs : List Char) : JSNumber :=
  let s := cs.dropWhile isStrWhiteSpaceChar
  let (sign, s) : Int × List Char :=
    match s with
    | '-' :: t => (-1, t)
    | '+' :: t => (1, t)
    | _ => (1, s)
  let (radix, s) : Nat × List Char :=
    match s with
    | '0' :: 'x' :: t => (16, t)
    | '0' :: 'X' :: t => (16, t)
    | _ => (10, s)
  let z := takeDigits radix s
  if z.isEmpty then none else ofInt (sign * (digitsValue radix z : Int))

/-- The function `parseInt` on a string. -/
def parseInt (s : String) : JSNumber := parseIntChars s.data

/-- The function `parseInt` on a property that may be `undefined`: `parseInt(undefined)`
reads the text `undefined`, which has no digit, and is `NaN`. -/
def parseIntProp (v : Option String) : JSNumber := v.bind parseInt

/-! ## The data: the object built by `getFormData` and the form it is read from -/

/-- The object `data` handed to the estimator: one property per form entry, `none` when the
form has no entry of that name. -/
structure FormData where
  area : Option String
  bedrooms : Option String
  bathrooms : Option String
  stories : Option String
  mainroad : Option String
  guestroom : Option String
  basement : Option String
  hotwaterheating : Option String
  airconditioning : Option String
  parking : Option String
  prefarea : Option String
  furnishingstatus : Option String
deriving DecidableEq, Repr

/-- Modelled from the spec: the markup of the page is not among the sources, so the values
that the radio buttons of the group `furnishingstatus` carry are taken from the data model
of the specification, the enumeration furnished, semi-furnished, unfurnished (the values
`calculateBasePrice` compares the field with). -/
inductive FurnishingStatus where
  | furnished : FurnishingStatus
  | semiFurnished : FurnishingStatus
  | unfurnished : FurnishingStatus
deriving DecidableEq, Repr

/-- The attribute `value` of a radio button of the group. -/
def FurnishingStatus.value : FurnishingStatus → String
  | .furnished => "furnished"
  | .semiFurnished => "semi-furnished"
  | .unfurnished => "unfurnished"

/-- A radio button of the group `furnishingstatus`. -/
structure Radio where
  status : FurnishingStatus
  checked : Bool
deriving DecidableEq, Repr

/-- The form as the code reads it: `control name` is the value of the element found by
`querySelector('[name="name"]')` (`none` when there is no such element), `radios` are the
elements found by `querySelectorAll('[name="furnishingstatus"]')`. -/
structure Form where
  control : String → Option String
  radios : List Radio

/-- The list `requiredFields` of `validateForm`. -/
def requiredFields : List String :=
  ["area", "bedrooms", "bathrooms", "stories", "mainroad",
   "guestroom", "basement", "hotwaterheating", "airconditioning",
   "parking", "prefarea", "furnishingstatus"]

/-- One turn of the loop of `validateForm`: `true` when the field raises no error.  The
radio group needs a checked button; any other field needs an element whose trimmed value
is not empty. -/
def fieldFilled (f : Form) (fieldName : String) : Bool :=
  if fieldName = "furnishingstatus" then
    f.radios.any (fun radio => radio.checked)
  else
    match f.control fieldName with
    | none => false
    | some v => decide (jsTrim v ≠ "")

/-- The test `area < 1000 || area > 20000`; a comparison with `NaN` is false. -/
def areaOutOfRange (area : JSNumber) : Bool :=
  numLt area (ofInt 1000) || numGt area (ofInt 20000)

/-- The method `validateForm`: the value of `isValid` it returns. -/
def validateForm (f : Form) : Bool :=
  let isValid := true
  let isValid := requiredFields.foldl
    (fun isValid fieldName => if fieldFilled f fieldName then isValid else false) isValid
  let isValid :=
    match f.control "area" with
    | some v =>
      if v ≠ "" then
        if areaOutOfRange (parseInt v) then false else isValid
      else isValid
    | none => isValid
  isValid

/-- The method `getFormData`: the entries of `new FormData(form)` as an object.  A control
contributes its value under its name, the radio group the value of its checked button
(a later entry of the same name overwrites an earlier one). -/
def getFormData (f : Form) : FormData where
  area := f.control "area"
  bedrooms := f.control "bedrooms"
  bathrooms := f.control "bathrooms"
  stories := f.control "stories"
  mainroad := f.control "mainroad"
  guestroom := f.control "guestroom"
  basement := f.control "basement"
  hotwaterheating := f.control "hotwaterheating"
  airconditioning := f.control "airconditioning"
  parking := f.control "parking"
  prefarea := f.control "prefarea"
  furnishingstatus := ((f.radios.filter (fun radio => radio.checked)).getLast?).map
    (fun radio => radio.status.value)

/-! ## The estimator -/

/-- The variable `pricePerSqFt` of `calculateBasePrice` when it is multiplied by the area. -/
def pricePerSqFt (data : FormData) : Int :=
  let pricePerSqFt := 500
  let pricePerSqFt := if data.prefarea = some "yes" then pricePerSqFt + 150 else pricePerSqFt
  let pricePerSqFt := if data.mainroad = some "yes" then pricePerSqFt + 100 else pricePerSqFt
  let pricePerSqFt := if data.basement = some "yes" then pricePerSqFt + 50 else pricePerSqFt
  let pricePerSqFt :=
    if data.hotwaterheating = some "yes" then pricePerSqFt + 25 else pricePerSqFt
  let pricePerSqFt :=
    if data.airconditioning = some "yes" then pricePerSqFt + 75 else pricePerSqFt
  let pricePerSqFt := if data.guestroom = some "yes" then pricePerSqFt + 50 else pricePerSqFt
  pricePerSqFt

/-- The value of `price` in `calculateBasePrice` just before the random variation is
applied (the statements up to the furnishing adjustment). -/
def preNoisePrice (data : FormData) : JSNumber :=
  let area := parseIntProp data.area
  let price := numMul area (ofInt (pricePerSqFt data))
  let bedrooms := parseIntProp data.bedrooms
  let bathrooms := parseIntProp data.bathrooms
  let price := numAdd price (numMul (numSub bedrooms (ofInt 1)) (ofInt 100000))
  let price := numAdd price (numMul (numSub bathrooms (ofInt 1)) (ofInt 150000))
  let stories := parseIntProp data.stories
  let price :=
    if numGt stories (ofInt 1) then
      numAdd price (numMul (numSub stories (ofInt 1)) (ofInt 200000))
    else price
  let parking := parseIntProp data.parking
  let price := numAdd price (numMul parking (ofInt 100000))
  let price :=
    if data.furnishingstatus = some "furnished" then numAdd price (ofInt 500000)
    else if data.furnishingstatus = some "semi-furnished" then numAdd price (ofInt 250000)
    else price
  price

/-- The factor `variation = 0.9 + Math.random() * 0.2` for the draw `r`. -/
def variation (r : ℚ) : JSNumber :=
  numAdd (lit (9 / 10)) (numMul (some (Value.fin r)) (lit (2 / 10)))

/-- The method `calculateBasePrice` for the draw `r` of `Math.random()`: the price before
the variation, times the variation, rounded by `Math.round`. -/
def calculateBasePrice (data : FormData) (r : ℚ) : JSNumber :=
  mathRound (numMul (preNoisePrice data) (variation r))

/-- The method `getMainFactors`: the labels pushed in turn, cut by `slice(0, 3)`. -/
def getMainFactors (data : FormData) : List String :=
  let factors : List String := []
  let factors :=
    if data.prefarea = some "yes" then factors ++ ["Premium location"] else factors
  let factors :=
    if data.mainroad = some "yes" then factors ++ ["Main road access"] else factors
  let factors :=
    if numGe (parseIntProp data.bedrooms) (ofInt 4) then factors ++ ["Spacious layout"]
    else factors
  let factors :=
    if data.basement = some "yes" then factors ++ ["Basement included"] else factors
  let factors :=
    if data.furnishingstatus = some "furnished" then factors ++ ["Fully furnished"]
    else factors
  factors.take 3

/-- The object returned by `simulatePrediction`. -/
structure Prediction where
  price : JSNumber
  confidence : JSNumber
  factors : List String

/-- The method `simulatePrediction`, the three draws of `Math.random()` made explicit in
the order of the calls: the delay, the variation of the price, the confidence
`0.85 + Math.random() * 0.1`.  The delay only postpones the result. -/
def simulatePrediction (formData : FormData) (_rDelay rPrice rConfidence : ℚ) : Prediction where
  price := calculateBasePrice formData rPrice
  confidence := numAdd (lit (85 / 100)) (numMul (some (Value.fin rConfidence)) (lit (1 / 10)))
  factors := getMainFactors formData

/-- The method `handleFormSubmit`: nothing is predicted when `validateForm` fails, otherwise
the data of the form go to `simulatePrediction`. -/
def handleFormSubmit (f : Form) (rDelay rPrice rConfidence : ℚ) : Option Prediction :=
  if !validateForm f then none
  else some (simulatePrediction (getFormData f) rDelay rPrice rConfidence)

/-! ## The price formatter -/

/-- The number of decimal digits of a positive natural number. -/
def decimalLength (n : Nat) : Nat := (Nat.toDigits 10 n).length

/-- The shortest decimal that reads back as the binary64 integer `n > 0`, for `k`
significant digits: the digits `s` and the power of ten of the leading digit, when some
`s` with `k` digits has `s * 10^(len - k)` rounding to `n`. -/
def shortestWith (n : Nat) (k : Nat) : Option (Nat × Nat) :=
  let len := decimalLength n
  let scale := 10 ^ (len - k)
  let s0 := n / scale
  let ok (s : Nat) : Bool := decide (fl ((s * scale : Nat) : ℚ) = (n : ℚ))
  let lowOk := decide (10 ^ (k - 1) ≤ s0) && ok s0
  let highOk := ok (s0 + 1)
  let pick (s : Nat) : Nat × Nat :=
    if s = 10 ^ k then (1, len) else (s, len - 1)
  if lowOk && highOk then
    let dl := n - s0 * scale
    let dh := (s0 + 1) * scale - n
    if dl < dh then some (pick s0)
    else if dh < dl then some (pick (s0 + 1))
    else if s0 % 2 = 0 then some (pick s0) else some (pick (s0 + 1))
  else if lowOk then some (pick s0)
  else if highOk then some (pick (s0 + 1))
  else none

/-- The shortest digits that read back as the binary64 integer `n > 2^53`, with the power of
ten of the leading digit. -/
def shortestDigits (n : Nat) : Option (Nat × Nat) :=
  (List.range 17).findSome? (fun i => shortestWith n (i + 1))

/-- Removal of the zeros at the end of a digit string. -/
def dropTrailingZeros (cs : List Char) : List Char :=
  (cs.reverse.dropWhile (fun c => c == '0')).reverse

/-- The decimal digits `Number::toString` gives a non-negative integer-valued Number: the
digits of the integer up to `2^53`; beyond, the shortest digits that read back as the
Number, followed by zeros. -/
def numberDigits (n : Nat) : List Char :=
  if n ≤ 2 ^ 53 then Nat.toDigits 10 n
  else
    match shortestDigits n with
    | some (s, e) =>
      let ds := Nat.toDigits 10 s
      ds ++ List.replicate (e + 1 - ds.length) '0'
    | none => Nat.toDigits 10 n

/-- The text of `Number::toString` for a binary64 integer of magnitude `10^21` or more:
the shortest digits that read back as the Number, in exponent form. -/
def exponentForm (n : Nat) : String :=
  match shortestDigits n with
  | some (s, e) =>
    match dropTrailingZeros (Nat.toDigits 10 s) with
    | [] => "0"
    | [d] => String.mk [d] ++ "e+" ++ toString e
    | d :: ds => String.mk (d :: '.' :: ds) ++ "e+" ++ toString e
  | none => toString n

/-- The text of `Number::toString` for an integer-valued Number: its decimal digits below
`10^21`, the exponent form from there on. -/
def integerToString (n : ℤ) : String :=
  if n.natAbs ≤ 2 ^ 53 then toString n
  else if n.natAbs < 10 ^ 21 then
    (if n < 0 then "-" else "") ++ String.mk (numberDigits n.natAbs)
  else (if n < 0 then "-" else "") ++ exponentForm n.natAbs

/-- The text of a Number that `Math.round` returned, as a template literal inserts it. -/
def roundedToString (a : JSNumber) : String :=
  match a with
  | none => "NaN"
  | some .posInf => "Infinity"
  | some .negInf => "-Infinity"
  | some (.fin x) => integerToString ⌊x⌋

/-- The method `Number.prototype.toFixed(1)`: below `10^21` the integer `n` for which
`n / 10` is closest to the Number (the larger one at a tie), written with one digit after
the point; from `10^21` on, and for a Number that is not finite, the text of
`Number::toString`. -/
def toFixed1 (a : JSNumber) : String :=
  match a with
  | some (.fin x) =>
    if (10 : ℚ) ^ 21 ≤ |x| then integerToString ⌊x⌋
    else
      let n := (⌊|x| * 10 + 1 / 2⌋).toNat
      (if x < 0 then "-" else "") ++ toString (n / 10) ++ "." ++ toString (n % 10)
  | other => roundedToString other

/-- Grouping by two of the digits that precede the last three, least significant first. -/
def groupPairs : List Char → List Char
  | a :: b :: c :: t => a :: b :: ',' :: groupPairs (c :: t)
  | l => l

/-- Digit grouping of the locale `en-IN`: a comma before the last three digits, then one
before every two digits. -/
def groupIndian (digits : List Char) : List Char :=
  match digits.reverse with
  | a :: b :: c :: d :: t => (groupPairs (d :: t)).reverse ++ [',', c, b, a]
  | _ => digits

/-- The call `toLocaleString('en-IN')` on an integer-valued Number. -/
def toLocaleStringEnIN (n : Int) : String :=
  (if n < 0 then "-" else "") ++ String.mk (groupIndian (numberDigits n.natAbs))

/-- The call `toLocaleString('en-IN')` on the Number `price` of `formatPrice`. -/
def numberToLocaleString (a : JSNumber) : String :=
  match a with
  | none => "NaN"
  | some .posInf => "∞"
  | some .negInf => "-∞"
  | some (.fin x) => toLocaleStringEnIN ⌊x⌋

/-- The method `formatPrice` on the Number nearest to an integer price. -/
def formatPrice (price : Int) : String :=
  let price : JSNumber := ofInt price
  let crores := numDiv price (ofInt 10000000)
  let lakhs := numDiv (numMod price (ofInt 10000000)) (ofInt 100000)
  if numGe crores (ofInt 1) then
    if numGt lakhs (ofInt 0) then "₹" ++ toFixed1 crores ++ " Cr"
    else "₹" ++ roundedToString (mathRound crores) ++ " Cr"
  else if numGe lakhs (ofInt 1) then "₹" ++ roundedToString (mathRound lakhs) ++ " Lakh"
  else "₹" ++ numberToLocaleString price

/-! ## The statements of the specification, in its own words -/

/-- The bracket `[x]` of the specification: `1` when the field is `yes`, `0` otherwise. -/
def yesNo (v : Option String) : Int := if v = some "yes" then 1 else 0

/-- The furnishing bonus of the specification: `500000` for `furnished`, `250000` for
`semi-furnished`, `0` otherwise. -/
def furnishingBonus (v : Option String) : Int :=
  if v = some "furnished" then 500000
  else if v = some "semi-furnished" then 250000
  else 0

/-- The total before the random variation as the specification writes it, for the parsed
values of the five numeric fields. -/
def formulaTotal (data : FormData) (area bedrooms bathrooms stories parking : Int) : Int :=
  area * (500 + 150 * yesNo data.prefarea + 100 * yesNo data.mainroad
      + 50 * yesNo data.basement + 25 * yesNo data.hotwaterheating
      + 75 * yesNo data.airconditioning + 50 * yesNo data.guestroom)
    + (bedrooms - 1) * 100000 + (bathrooms - 1) * 150000
    + (if stories > 1 then (stories - 1) * 200000 else 0)
    + parking * 100000 + furnishingBonus data.furnishingstatus

/-- The rule `bedrooms ≥ 4` of the factor list: the bedrooms parse to a Number, and it is
at least 4. -/
def bedroomsAtLeastFour (data : FormData) : Bool :=
  match parseIntProp data.bedrooms with
  | some .posInf => true
  | some (.fin b) => decide (4 ≤ b)
  | _ => false

/-- The rules of the factor list in their fixed order: the condition of each label. -/
def factorRules (data : FormData) : List (Bool × String) :=
  [(decide (data.prefarea = some "yes"), "Premium location"),
   (decide (data.mainroad = some "yes"), "Main road access"),
   (bedroomsAtLeastFour data, "Spacious layout"),
   (decide (data.basement = some "yes"), "Basement included"),
   (decide (data.furnishingstatus = some "furnished"), "Fully furnished")]

/-- The labels whose condition holds, in the fixed order. -/
def keptFactors (data : FormData) : List String :=
  ((factorRules data).filter (fun rule => rule.1)).map (fun rule => rule.2)

/-- The five labels in their priority order. -/
def factorPriority : List String :=
  ["Premium location", "Main road access", "Spacious layout", "Basement included",
   "Fully furnished"]

/-- A record given by its area, bedrooms, hot water heating and furnishing status; one
bathroom, one story, no parking and no other amenity. -/
def plainRecord (area bedrooms hotwaterheating furnishingstatus : String) : FormData where
  area := some area
  bedrooms := some bedrooms
  bathrooms := some "1"
  stories := some "1"
  mainroad := some "no"
  guestroom := some "no"
  basement := some "no"
  hotwaterheating := some hotwaterheating
  airconditioning := some "no"
  parking := some "0"
  prefarea := some "no"
  furnishingstatus := some furnishingstatus

/-- A record in which the six amenities are all `yes`. -/
def allAmenities : FormData where
  area := some "1000"
  bedrooms := some "1"
  bathrooms := some "1"
  stories := some "1"
  mainroad := some "yes"
  guestroom := some "yes"
  basement := some "yes"
  hotwaterheating := some "yes"
  airconditioning := some "yes"
  parking := some "0"
  prefarea := some "yes"
  furnishingstatus := some "unfurnished"

/-- A valid `HouseAttributes` record of the specification, with the parsed values of its
numeric fields. -/
structure ValidHouseAttributes (data : FormData)
    (area bedrooms bathrooms stories parking : Int) : Prop where
  area_parsed : parseIntProp data.area = some (Value.fin area)
  bedrooms_parsed : parseIntProp data.bedrooms = some (Value.fin bedrooms)
  bathrooms_parsed : parseIntProp data.bathrooms = some (Value.fin bathrooms)
  stories_parsed : parseIntProp data.stories = some (Value.fin stories)
  parking_parsed : parseIntProp data.parking = some (Value.fin parking)
  area_lower : 1000 ≤ area
  area_upper : area ≤ 20000
  bedrooms_pos : 1 ≤ bedrooms
  bathrooms_pos : 1 ≤ bathrooms
  stories_pos : 1 ≤ stories
  parking_nonneg : 0 ≤ parking
  mainroad_yes_no : data.mainroad = some "yes" ∨ data.mainroad = some "no"
  guestroom_yes_no : data.guestroom = some "yes" ∨ data.guestroom = some "no"
  basement_yes_no : data.basement = some "yes" ∨ data.basement = some "no"
  hotwaterheating_yes_no :
    data.hotwaterheating = some "yes" ∨ data.hotwaterheating = some "no"
  airconditioning_yes_no :
    data.airconditioning = some "yes" ∨ data.airconditioning = some "no"
  prefarea_yes_no : data.prefarea = some "yes" ∨ data.prefarea = some "no"
  furnishing_enum : data.furnishingstatus = some "furnished" ∨
    data.furnishingstatus = some "semi-furnished" ∨
    data.furnishingstatus = some "unfurnished"

/-- One record is obtained from another by raising exactly one field: a numeric field
parses to a Number at least as large, an amenity goes from `no` to `yes`, or the furnishing
status moves up along unfurnished, semi-furnished, furnished. -/
inductive Upgrade : FormData → FormData → Prop
  | area (d : FormData) (s : String) (a a' : Value) :
      parseIntProp d.area = some a → parseInt s = some a' → a ≤ a' →
      Upgrade d { d with area := some s }
  | bedrooms (d : FormData) (s : String) (a a' : Value) :
      parseIntProp d.bedrooms = some a → parseInt s = some a' → a ≤ a' →
      Upgrade d { d with bedrooms := some s }
  | bathrooms (d : FormData) (s : String) (a a' : Value) :
      parseIntProp d.bathrooms = some a → parseInt s = some a' → a ≤ a' →
      Upgrade d { d with bathrooms := some s }
  | stories (d : FormData) (s : String) (a a' : Value) :
      parseIntProp d.stories = some a → parseInt s = some a' → a ≤ a' →
      Upgrade d { d with stories := some s }
  | parking (d : FormData) (s : String) (a a' : Value) :
      parseIntProp d.parking = some a → parseInt s = some a' → a ≤ a' →
      Upgrade d { d with parking := some s }
  | prefarea (d : FormData) : d.prefarea = some "no" →
      Upgrade d { d with prefarea := some "yes" }
  | mainroad (d : FormData) : d.mainroad = some "no" →
      Upgrade d { d with mainroad := some "yes" }
  | basement (d : FormData) : d.basement = some "no" →
      Upgrade d { d with basement := some "yes" }
  | hotwaterheating (d : FormData) : d.hotwaterheating = some "no" →
      Upgrade d { d with hotwaterheating := some "yes" }
  | airconditioning (d : FormData) : d.airconditioning = some "no" →
      Upgrade d { d with airconditioning := some "yes" }
  | guestroom (d : FormData) : d.guestroom = some "no" →
      Upgrade d { d with guestroom := some "yes" }
  | semiFurnished (d : FormData) : d.furnishingstatus = some "unfurnished" →
      Upgrade d { d with furnishingstatus := some "semi-furnished" }
  | furnished (d : FormData) :
      d.furnishingstatus = some "unfurnished" ∨ d.furnishingstatus = some "semi-furnished" →
      Upgrade d { d with furnishingstatus := some "furnished" }

/-- A form given by the entries of its controls and its radio buttons. -/
def formOf (entries : List (String × String)) (radios : List Radio) : Form where
  control := fun fieldName => entries.lookup fieldName
  radios := radios

/-- The entries of eleven controls filled in validly, with the given text for the area. -/
def filledEntries (area : String) : List (String × String) :=
  [("area", area), ("bedrooms", "3"), ("bathrooms", "2"), ("stories", "2"),
   ("mainroad", "yes"), ("guestroom", "no"), ("basement", "no"),
   ("hotwaterheating", "no"), ("airconditioning", "yes"), ("parking", "1"),
   ("prefarea", "yes")]

/-- The three radio buttons of the furnishing status, the first one checked. -/
def furnishingRadios : List Radio :=
  [⟨.furnished, true⟩, ⟨.semiFurnished, false⟩, ⟨.unfurnished, false⟩]

/-- A form filled in validly, except that the text of the area is not a number. -/
def nonNumericAreaForm : Form := formOf (filledEntries "abc") furnishingRadios

/-- A form filled in validly, except that the area is below the range. -/
def smallAreaForm : Form := formOf (filledEntries "999") furnishingRadios

/-- A form filled in validly, except that no radio button is checked. -/
def noFurnishingForm : Form :=
  formOf (filledEntries "1500")
    [⟨.furnished, false⟩, ⟨.semiFurnished, false⟩, ⟨.unfurnished, false⟩]

/-- A form filled in validly. -/
def filledForm : Form := formOf (filledEntries "1500") furnishingRadios

/-- A field of the specification is missing: absent, or blank after trimming. -/
def fieldBlank (v : Option String) : Bool :=
  match v with
  | none => true
  | some s => decide (jsTrim s = "")

/-- The value of a required field in the model of the specification: the selected value
for the furnishing status, the value of the control for any other field. -/
def fieldValue (f : Form) (fieldName : String) : Option String :=
  if fieldName = "furnishingstatus" then (getFormData f).furnishingstatus
  else f.control fieldName

/-- The grouping of fewer than six digits in the words of the specification: a comma
before the last three digits when there are more than three. -/
def commaBeforeLastThree (digits : List Char) : List Char :=
  if digits.length ≤ 3 then digits
  else digits.take (digits.length - 3) ++ ',' :: digits.drop (digits.length - 3)

/-- The relation "not smaller, when the first is finite" between two Numbers: if `x` is a
finite Number then `x'` is a Number, not `NaN`, and `x ≤ x'`. -/
def Rises (x x' : JSNumber) : Prop :=
  ∀ a : ℚ, x = some (Value.fin a) → ∃ v', x' = some v' ∧ Value.fin a ≤ v'

/-- The statement of `calculateBasePrice` that adjusts for the stories. -/
def storiesStep (price stories : JSNumber) : JSNumber :=
  if numGt stories (ofInt 1) then
    numAdd price (numMul (numSub stories (ofInt 1)) (ofInt 200000))
  else price

/-- The statement of `calculateBasePrice` that adjusts for the furnishing. -/
def furnishingStep (price : JSNumber) (furnishingstatus : Option String) : JSNumber :=
  if furnishingstatus = some "furnished" then numAdd price (ofInt 500000)
  else if furnishingstatus = some "semi-furnished" then numAdd price (ofInt 250000)
  else price

/-- The price before the variation as a function of the parsed fields. -/
def totalOf (area : JSNumber) (perSqFt : ℤ) (bedrooms bathrooms stories parking : JSNumber)
    (furnishingstatus : Option String) : JSNumber :=
  furnishingStep
    (numAdd
      (storiesStep
        (numAdd
          (numAdd (numMul area (ofInt perSqFt))
            (numMul (numSub bedrooms (ofInt 1)) (ofInt 100000)))
          (numMul (numSub bathrooms (ofInt 1)) (ofInt 150000)))
        stories)
      (numMul parking (ofInt 100000)))
    furnishingstatus

end HousePredictor

open HousePredictor


theorem log2Fuel_spec (fuel n : Nat) (hle : n ≤ fuel) (hn : n ≠ 0) :
    2 ^ log2Fuel fuel n ≤ n ∧ n < 2 ^ (log2Fuel fuel n + 1) := by
  induction fuel generalizing n with
  | zero => omega
  | succ fuel ih =>
    unfold log2Fuel
    by_cases h : n < 2
    · rw [if_pos h]
      constructor
      · simp; omega
      · simp; omega
    · rw [if_neg h]
      have h2 := ih (n / 2) (by omega) (by omega)
      obtain ⟨h3, h4⟩ := h2
      rw [pow_succ] at h4 ⊢
      rw [pow_succ]
      constructor <;> omega

theorem natLog2_spec (n : Nat) (hn : n ≠ 0) :
    2 ^ natLog2 n ≤ n ∧ n < 2 ^ (natLog2 n + 1) :=
  log2Fuel_spec n n (le_refl n) hn

theorem abs_eq_natAbs_div_den (x : ℚ) : |x| = (x.num.natAbs : ℚ) / (x.den : ℚ) := by
  have h1 : (x.den : ℚ) > 0 := by exact_mod_cast x.den_pos
  conv_lhs => rw [← Rat.num_div_den x]
  rw [abs_div, abs_of_pos h1]
  congr 1
  rw [Nat.cast_natAbs, Int.cast_abs]

theorem exponent_spec (x : ℚ) (hx : x ≠ 0) :
    (2 : ℚ) ^ exponent x ≤ |x| ∧ |x| < (2 : ℚ) ^ (exponent x + 1) := by
  have ha : x.num.natAbs ≠ 0 := by
    intro h
    apply hx
    have : x.num = 0 := Int.natAbs_eq_zero.mp h
    exact Rat.zero_of_num_zero this
  have hb : x.den ≠ 0 := x.den_nz
  obtain ⟨ha1, ha2⟩ := natLog2_spec _ ha
  obtain ⟨hb1, hb2⟩ := natLog2_spec _ hb
  rw [abs_eq_natAbs_div_den]
  set a := x.num.natAbs with hadef
  set b := x.den with hbdef
  set la := natLog2 a
  set lb := natLog2 b
  have hbpos : (0 : ℚ) < b := by
    have : 0 < b := Nat.pos_of_ne_zero hb
    exact_mod_cast this
  have e1 : (2 : ℚ) ^ ((la : ℤ) - lb) = (2 : ℚ) ^ la / (2 : ℚ) ^ lb := by
    rw [zpow_sub₀ (by norm_num : (2 : ℚ) ≠ 0), zpow_natCast, zpow_natCast]
  have e2 : (2 : ℚ) ^ ((la : ℤ) - lb - 1) = (2 : ℚ) ^ la / (2 : ℚ) ^ (lb + 1) := by
    have : ((la : ℤ) - lb - 1) = (la : ℤ) - ((lb + 1 : ℕ) : ℤ) := by push_cast; ring
    rw [this, zpow_sub₀ (by norm_num : (2 : ℚ) ≠ 0), zpow_natCast, zpow_natCast]
  have e3 : (2 : ℚ) ^ ((la : ℤ) - lb + 1) = (2 : ℚ) ^ (la + 1) / (2 : ℚ) ^ lb := by
    have : ((la : ℤ) - lb + 1) = ((la + 1 : ℕ) : ℤ) - (lb : ℤ) := by push_cast; ring
    rw [this, zpow_sub₀ (by norm_num : (2 : ℚ) ≠ 0), zpow_natCast, zpow_natCast]
  have p1 : (0 : ℚ) < (2 : ℚ) ^ lb := by positivity
  have p2 : (0 : ℚ) < (2 : ℚ) ^ (lb + 1) := by positivity
  have ha1' : ((2 : ℚ) ^ la) ≤ a := by exact_mod_cast ha1
  have ha2' : (a : ℚ) < (2 : ℚ) ^ (la + 1) := by exact_mod_cast ha2
  have hb1' : ((2 : ℚ) ^ lb) ≤ b := by exact_mod_cast hb1
  have hb2' : (b : ℚ) < (2 : ℚ) ^ (lb + 1) := by exact_mod_cast hb2
  have hapos : (0 : ℚ) < a := lt_of_lt_of_le (by positivity) ha1'
  unfold exponent
  simp only []
  rw [← hadef, ← hbdef]
  by_cases hc : 2 ^ la * b ≤ a * 2 ^ lb
  · rw [if_pos hc]
    have hc' : (2 : ℚ) ^ la * b ≤ a * (2 : ℚ) ^ lb := by exact_mod_cast hc
    constructor
    · rw [e1, div_le_div_iff₀ p1 hbpos]
      exact hc'
    · rw [e3, div_lt_div_iff₀ hbpos p1]
      calc (a : ℚ) * 2 ^ lb < 2 ^ (la + 1) * 2 ^ lb := by
            apply mul_lt_mul_of_pos_right ha2' p1
        _ ≤ 2 ^ (la + 1) * b := by
            apply mul_le_mul_of_nonneg_left hb1' (by positivity)
  · rw [if_neg hc]
    have hc' : (a : ℚ) * (2 : ℚ) ^ lb < (2 : ℚ) ^ la * b := by
      have := not_le.mp hc
      exact_mod_cast this
    constructor
    · rw [e2, div_le_div_iff₀ p2 hbpos]
      calc (2 : ℚ) ^ la * b ≤ a * b := by
            apply mul_le_mul_of_nonneg_right ha1' hbpos.le
        _ ≤ a * 2 ^ (lb + 1) := by
            apply mul_le_mul_of_nonneg_left hb2'.le hapos.le
    · have : ((la : ℤ) - lb - 1 + 1) = (la : ℤ) - lb := by ring
      rw [this, e1, div_lt_div_iff₀ hbpos p1]
      exact hc'

theorem roundHalfEven_cases (y : ℚ) :
    (roundHalfEven y = ⌊y⌋ ∧ y - ⌊y⌋ ≤ 1 / 2) ∨ (roundHalfEven y = ⌊y⌋ + 1 ∧ 1 / 2 ≤ y - ⌊y⌋) := by
  unfold roundHalfEven
  simp only []
  split_ifs with h1 h2 h3
  · exact Or.inl ⟨rfl, h1.le⟩
  · exact Or.inr ⟨rfl, h2.le⟩
  · exact Or.inl ⟨rfl, by linarith⟩
  · exact Or.inr ⟨rfl, by linarith⟩

theorem roundHalfEven_sub_le (y : ℚ) : |(roundHalfEven y : ℚ) - y| ≤ 1 / 2 := by
  have h1 := Int.floor_le y
  have h2 := Int.lt_floor_add_one y
  rw [abs_le]
  rcases roundHalfEven_cases y with ⟨h, h3⟩ | ⟨h, h3⟩
  · rw [h]
    constructor <;> linarith
  · rw [h]
    push_cast
    constructor <;> linarith

theorem roundHalfEven_intCast (n : ℤ) : roundHalfEven (n : ℚ) = n := by
  unfold roundHalfEven
  simp

theorem roundHalfEven_mono {y z : ℚ} (h : y ≤ z) : roundHalfEven y ≤ roundHalfEven z := by
  have hfg : ⌊y⌋ ≤ ⌊z⌋ := Int.floor_mono h
  rcases lt_or_eq_of_le hfg with hlt | heq
  · rcases roundHalfEven_cases y with ⟨h1, _⟩ | ⟨h1, _⟩ <;>
    rcases roundHalfEven_cases z with ⟨h2, _⟩ | ⟨h2, _⟩ <;>
    omega
  · unfold roundHalfEven
    simp only []
    rw [← heq]
    split_ifs <;> first | omega | (exfalso; linarith)

theorem roundHalfEven_le_of_le {y : ℚ} {n : ℤ} (h : y ≤ n) : roundHalfEven y ≤ n := by
  have := roundHalfEven_mono h
  rwa [roundHalfEven_intCast] at this

theorem roundHalfEven_ge_of_ge {y : ℚ} {n : ℤ} (h : (n : ℚ) ≤ y) : n ≤ roundHalfEven y := by
  have := roundHalfEven_mono h
  rwa [roundHalfEven_intCast] at this

theorem ulp_pos (x : ℚ) : 0 < ulp x := by
  unfold ulp
  positivity

theorem fl_zero : fl 0 = 0 := by
  unfold fl
  simp [roundHalfEven]

theorem fl_sub_le (x : ℚ) : |fl x - x| ≤ ulp x / 2 := by
  unfold fl
  have hu := ulp_pos x
  have h := roundHalfEven_sub_le (x / ulp x)
  have e : (roundHalfEven (x / ulp x) : ℚ) * ulp x - x
      = ((roundHalfEven (x / ulp x) : ℚ) - x / ulp x) * ulp x := by
    field_simp
  rw [e, abs_mul, abs_of_pos hu]
  calc |(roundHalfEven (x / ulp x) : ℚ) - x / ulp x| * ulp x ≤ 1 / 2 * ulp x :=
        mul_le_mul_of_nonneg_right h hu.le
    _ = ulp x / 2 := by ring

/-- The exponent used for the spacing: the binary exponent, not below `-1022`. -/
theorem ulp_eq (x : ℚ) : ulp x = (2 : ℚ) ^ (max (exponent x) (-1022) - 52) := rfl

theorem two_zpow_pos (k : ℤ) : (0 : ℚ) < (2 : ℚ) ^ k := by positivity

theorem exponent_mono_abs {x y : ℚ} (hx : x ≠ 0) (h : |x| ≤ |y|) :
    exponent x ≤ exponent y := by
  have hy : y ≠ 0 := by
    intro h0
    rw [h0, abs_zero] at h
    exact hx (abs_eq_zero.mp (le_antisymm h (abs_nonneg x)))
  have h1 := (exponent_spec x hx).1
  have h2 := (exponent_spec y hy).2
  have h3 : (2 : ℚ) ^ exponent x < (2 : ℚ) ^ (exponent y + 1) :=
    lt_of_le_of_lt (le_trans h1 h) h2
  have := (zpow_lt_zpow_iff_right₀ (by norm_num : (1 : ℚ) < 2)).mp h3
  omega

theorem abs_lt_clamped (x : ℚ) (hx : x ≠ 0) :
    |x| < (2 : ℚ) ^ (max (exponent x) (-1022) + 1) := by
  have h2 := (exponent_spec x hx).2
  refine lt_of_lt_of_le h2 ?_
  apply zpow_le_zpow_right₀ (by norm_num)
  have := le_max_left (exponent x) (-1022)
  omega

theorem ulp_mul_two_pow (x : ℚ) (j : ℕ) :
    ((2 : ℚ) ^ j) * ulp x = (2 : ℚ) ^ (max (exponent x) (-1022) - 52 + j) := by
  rw [ulp_eq, zpow_add₀ (by norm_num : (2 : ℚ) ≠ 0), zpow_natCast]
  ring

theorem fl_le_of_pos (x : ℚ) (hx : 0 < x) :
    fl x ≤ (2 : ℚ) ^ (max (exponent x) (-1022) + 1) := by
  have hu := ulp_pos x
  have h1 := abs_lt_clamped x hx.ne'
  rw [abs_of_pos hx] at h1
  have e : (2 : ℚ) ^ (max (exponent x) (-1022) + 1) = ((2 : ℚ) ^ 53) * ulp x := by
    rw [ulp_mul_two_pow]
    congr 1
    push_cast
    ring
  rw [e] at h1 ⊢
  have h2 : x / ulp x ≤ ((2 ^ 53 : ℤ) : ℚ) := by
    rw [div_le_iff₀ hu]
    push_cast
    exact h1.le
  have h3 := roundHalfEven_le_of_le h2
  unfold fl
  have h4 : (roundHalfEven (x / ulp x) : ℚ) ≤ ((2 ^ 53 : ℤ) : ℚ) := by exact_mod_cast h3
  push_cast at h4
  exact mul_le_mul_of_nonneg_right h4 hu.le

theorem fl_ge_of_pos_normal (x : ℚ) (hx : 0 < x) (hn : -1022 ≤ exponent x) :
    (2 : ℚ) ^ (exponent x) ≤ fl x := by
  have hu := ulp_pos x
  have h1 := (exponent_spec x hx.ne').1
  rw [abs_of_pos hx] at h1
  have hmax : max (exponent x) (-1022) = exponent x := max_eq_left hn
  have e : (2 : ℚ) ^ (exponent x) = ((2 : ℚ) ^ 52) * ulp x := by
    rw [ulp_mul_two_pow, hmax]
    congr 1
    push_cast
    ring
  rw [e] at h1 ⊢
  have h2 : ((2 ^ 52 : ℤ) : ℚ) ≤ x / ulp x := by
    rw [le_div_iff₀ hu]
    push_cast
    exact h1
  have h3 := roundHalfEven_ge_of_ge h2
  unfold fl
  have h4 : ((2 ^ 52 : ℤ) : ℚ) ≤ (roundHalfEven (x / ulp x) : ℚ) := by exact_mod_cast h3
  push_cast at h4
  exact mul_le_mul_of_nonneg_right h4 hu.le

theorem fl_nonneg {x : ℚ} (hx : 0 ≤ x) : 0 ≤ fl x := by
  have hu := ulp_pos x
  unfold fl
  have h2 : ((0 : ℤ) : ℚ) ≤ x / ulp x := by
    push_cast
    positivity
  have h3 := roundHalfEven_ge_of_ge h2
  have h4 : (0 : ℚ) ≤ (roundHalfEven (x / ulp x) : ℚ) := by exact_mod_cast h3
  positivity

theorem fl_nonpos {x : ℚ} (hx : x ≤ 0) : fl x ≤ 0 := by
  have hu := ulp_pos x
  unfold fl
  have h2 : x / ulp x ≤ ((0 : ℤ) : ℚ) := by
    push_cast
    exact div_nonpos_of_nonpos_of_nonneg hx hu.le
  have h3 := roundHalfEven_le_of_le h2
  have h4 : (roundHalfEven (x / ulp x) : ℚ) ≤ 0 := by exact_mod_cast h3
  exact mul_nonpos_of_nonpos_of_nonneg h4 hu.le

theorem fl_ge_of_neg (x : ℚ) (hx : x < 0) :
    -(2 : ℚ) ^ (max (exponent x) (-1022) + 1) ≤ fl x := by
  have hu := ulp_pos x
  have h1 := abs_lt_clamped x hx.ne
  rw [abs_of_neg hx] at h1
  have e : (2 : ℚ) ^ (max (exponent x) (-1022) + 1) = ((2 : ℚ) ^ 53) * ulp x := by
    rw [ulp_mul_two_pow]
    congr 1
    push_cast
    ring
  rw [e] at h1 ⊢
  have h2 : ((-(2 ^ 53) : ℤ) : ℚ) ≤ x / ulp x := by
    rw [le_div_iff₀ hu]
    push_cast
    linarith
  have h3 := roundHalfEven_ge_of_ge h2
  unfold fl
  have h4 : ((-(2 ^ 53) : ℤ) : ℚ) ≤ (roundHalfEven (x / ulp x) : ℚ) := by exact_mod_cast h3
  push_cast at h4
  have := mul_le_mul_of_nonneg_right h4 hu.le
  linarith

theorem fl_le_of_neg_normal (x : ℚ) (hx : x < 0) (hn : -1022 ≤ exponent x) :
    fl x ≤ -(2 : ℚ) ^ (exponent x) := by
  have hu := ulp_pos x
  have h1 := (exponent_spec x hx.ne).1
  rw [abs_of_neg hx] at h1
  have hmax : max (exponent x) (-1022) = exponent x := max_eq_left hn
  have e : (2 : ℚ) ^ (exponent x) = ((2 : ℚ) ^ 52) * ulp x := by
    rw [ulp_mul_two_pow, hmax]
    congr 1
    push_cast
    ring
  rw [e] at h1 ⊢
  have h2 : x / ulp x ≤ ((-(2 ^ 52) : ℤ) : ℚ) := by
    rw [div_le_iff₀ hu]
    push_cast
    linarith
  have h3 := roundHalfEven_le_of_le h2
  unfold fl
  have h4 : (roundHalfEven (x / ulp x) : ℚ) ≤ ((-(2 ^ 52) : ℤ) : ℚ) := by exact_mod_cast h3
  push_cast at h4
  have := mul_le_mul_of_nonneg_right h4 hu.le
  linarith

theorem fl_mono_same_ulp {x y : ℚ} (h : x ≤ y) (hu : ulp x = ulp y) : fl x ≤ fl y := by
  unfold fl
  rw [hu]
  have hpos := ulp_pos y
  have h1 : x / ulp y ≤ y / ulp y := div_le_div_of_nonneg_right h hpos.le
  have h2 := roundHalfEven_mono h1
  have h3 : (roundHalfEven (x / ulp y) : ℚ) ≤ (roundHalfEven (y / ulp y) : ℚ) := by
    exact_mod_cast h2
  exact mul_le_mul_of_nonneg_right h3 hpos.le

theorem fl_mono_pos {x y : ℚ} (hx : 0 < x) (h : x ≤ y) : fl x ≤ fl y := by
  have hy : 0 < y := lt_of_lt_of_le hx h
  have he : exponent x ≤ exponent y := by
    apply exponent_mono_abs hx.ne'
    rw [abs_of_pos hx, abs_of_pos hy]
    exact h
  rcases lt_or_eq_of_le (max_le_max he (le_refl (-1022 : ℤ))) with hlt | heq
  · have hny : -1022 ≤ exponent y := by
      by_contra hc
      have h1 : max (exponent y) (-1022) = -1022 := max_eq_right (by omega)
      have h2 := le_max_right (exponent x) (-1022)
      omega
    have hmaxy : max (exponent y) (-1022) = exponent y := max_eq_left hny
    calc fl x ≤ (2 : ℚ) ^ (max (exponent x) (-1022) + 1) := fl_le_of_pos x hx
      _ ≤ (2 : ℚ) ^ (exponent y) := by
          apply zpow_le_zpow_right₀ (by norm_num)
          omega
      _ ≤ fl y := fl_ge_of_pos_normal y hy hny
  · apply fl_mono_same_ulp h
    rw [ulp_eq, ulp_eq, heq]

theorem fl_mono_neg {x y : ℚ} (hy : y < 0) (h : x ≤ y) : fl x ≤ fl y := by
  have hx : x < 0 := lt_of_le_of_lt h hy
  have he : exponent y ≤ exponent x := by
    apply exponent_mono_abs hy.ne
    rw [abs_of_neg hx, abs_of_neg hy]
    linarith
  rcases lt_or_eq_of_le (max_le_max he (le_refl (-1022 : ℤ))) with hlt | heq
  · have hnx : -1022 ≤ exponent x := by
      by_contra hc
      have h1 : max (exponent x) (-1022) = -1022 := max_eq_right (by omega)
      have h2 := le_max_right (exponent y) (-1022)
      omega
    have hmaxx : max (exponent x) (-1022) = exponent x := max_eq_left hnx
    have h3 : (2 : ℚ) ^ (max (exponent y) (-1022) + 1) ≤ (2 : ℚ) ^ (exponent x) := by
      apply zpow_le_zpow_right₀ (by norm_num)
      omega
    calc fl x ≤ -(2 : ℚ) ^ (exponent x) := fl_le_of_neg_normal x hx hnx
      _ ≤ -(2 : ℚ) ^ (max (exponent y) (-1022) + 1) := by linarith
      _ ≤ fl y := fl_ge_of_neg y hy
  · apply fl_mono_same_ulp h
    rw [ulp_eq, ulp_eq, heq]

/-- Rounding to binary64 is monotone. -/
theorem fl_mono {x y : ℚ} (h : x ≤ y) : fl x ≤ fl y := by
  rcases lt_trichotomy 0 x with hx | hx | hx
  · exact fl_mono_pos hx h
  · subst hx
    rw [fl_zero]
    exact fl_nonneg h
  · rcases lt_or_le y 0 with hy | hy
    · exact fl_mono_neg hy h
    · exact le_trans (fl_nonpos hx.le) (fl_nonneg hy)

theorem fl_eq_self_of_ulp_le (m k : ℤ)
    (h : max (exponent ((m : ℚ) * (2 : ℚ) ^ k)) (-1022) - 52 ≤ k) :
    fl ((m : ℚ) * (2 : ℚ) ^ k) = (m : ℚ) * (2 : ℚ) ^ k := by
  set x := (m : ℚ) * (2 : ℚ) ^ k with hx
  set j := max (exponent x) (-1022) - 52 with hj
  have hu : ulp x = (2 : ℚ) ^ j := rfl
  obtain ⟨d, hd⟩ : ∃ d : ℕ, k = j + d := ⟨(k - j).toNat, by omega⟩
  have hk : (2 : ℚ) ^ k = (2 : ℚ) ^ j * (2 : ℚ) ^ d := by
    rw [hd, zpow_add₀ (by norm_num : (2 : ℚ) ≠ 0), zpow_natCast]
  have hpos : (0 : ℚ) < (2 : ℚ) ^ j := two_zpow_pos j
  have hq : x / ulp x = ((m * 2 ^ d : ℤ) : ℚ) := by
    rw [hu, hx, hk]
    push_cast
    field_simp
    ring
  unfold fl
  rw [hq, roundHalfEven_intCast, hu, hx, hk]
  push_cast
  ring

/-- A number `m * 2^k` with at most 53 significant bits and `k ≥ -1074` is a binary64
number: rounding leaves it unchanged. -/
theorem fl_eq_self (m k : ℤ) (hm : |m| ≤ 2 ^ 53) (hk : -1074 ≤ k) :
    fl ((m : ℚ) * (2 : ℚ) ^ k) = (m : ℚ) * (2 : ℚ) ^ k := by
  by_cases hm0 : m = 0
  · subst hm0
    simp [fl_zero]
  have hx0 : (m : ℚ) * (2 : ℚ) ^ k ≠ 0 := by
    have : (m : ℚ) ≠ 0 := by exact_mod_cast hm0
    have := two_zpow_pos k
    positivity
  have hspec := (exponent_spec _ hx0).1
  have habs : |(m : ℚ) * (2 : ℚ) ^ k| = (|m| : ℤ) * (2 : ℚ) ^ k := by
    rw [abs_mul, abs_of_pos (two_zpow_pos k), Int.cast_abs]
  rw [habs] at hspec
  have e53 : ((2 ^ 53 : ℤ) : ℚ) = (2 : ℚ) ^ (53 : ℤ) := by norm_num
  have hm' : ((|m| : ℤ) : ℚ) ≤ (2 : ℚ) ^ (53 : ℤ) := by
    have : ((|m| : ℤ) : ℚ) ≤ ((2 ^ 53 : ℤ) : ℚ) := by exact_mod_cast hm
    rwa [e53] at this
  have hle : (2 : ℚ) ^ exponent ((m : ℚ) * (2 : ℚ) ^ k) ≤ (2 : ℚ) ^ (53 + k) := by
    rw [zpow_add₀ (by norm_num : (2 : ℚ) ≠ 0)]
    exact le_trans hspec (mul_le_mul_of_nonneg_right hm' (two_zpow_pos k).le)
  have he : exponent ((m : ℚ) * (2 : ℚ) ^ k) ≤ 53 + k :=
    (zpow_le_zpow_iff_right₀ (by norm_num : (1 : ℚ) < 2)).mp hle
  by_cases hcase : exponent ((m : ℚ) * (2 : ℚ) ^ k) ≤ 52 + k
  · apply fl_eq_self_of_ulp_le
    rcases le_total (exponent ((m : ℚ) * (2 : ℚ) ^ k)) (-1022) with h1 | h1
    · rw [max_eq_right h1]; omega
    · rw [max_eq_left h1]; omega
  · have heq : exponent ((m : ℚ) * (2 : ℚ) ^ k) = 53 + k := by omega
    -- then |m| = 2^53
    have hge : (2 : ℚ) ^ (53 + k) ≤ (|m| : ℤ) * (2 : ℚ) ^ k := by
      rw [← heq]; exact hspec
    rw [zpow_add₀ (by norm_num : (2 : ℚ) ≠ 0)] at hge
    have hge' : (2 : ℚ) ^ (53 : ℤ) ≤ ((|m| : ℤ) : ℚ) :=
      le_of_mul_le_mul_right hge (two_zpow_pos k)
    have habsm : |m| = 2 ^ 53 := by
      have h1 : ((2 ^ 53 : ℤ) : ℚ) ≤ ((|m| : ℤ) : ℚ) := by rw [e53]; exact hge'
      have h2 : (2 ^ 53 : ℤ) ≤ |m| := by exact_mod_cast h1
      omega
    obtain ⟨m', hm'2⟩ : ∃ m' : ℤ, m = 2 * m' := by
      rcases abs_eq (by norm_num : (0 : ℤ) ≤ 2 ^ 53) |>.mp habsm with h | h
      · exact ⟨2 ^ 52, by rw [h]; norm_num⟩
      · exact ⟨-2 ^ 52, by rw [h]; norm_num⟩
    have hrew : (m : ℚ) * (2 : ℚ) ^ k = (m' : ℚ) * (2 : ℚ) ^ (k + 1) := by
      rw [hm'2, zpow_add₀ (by norm_num : (2 : ℚ) ≠ 0)]
      push_cast
      ring
    rw [hrew]
    apply fl_eq_self_of_ulp_le
    rw [← hrew, heq]
    rw [max_eq_left (by omega)]
    omega

theorem fl_abs_quot_le (x : ℚ) : |(roundHalfEven (x / ulp x) : ℤ)| ≤ 2 ^ 53 := by
  have hu := ulp_pos x
  by_cases hx : x = 0
  · subst hx
    simp [roundHalfEven]
  have h1 := abs_lt_clamped x hx
  have e : (2 : ℚ) ^ (max (exponent x) (-1022) + 1) = ((2 : ℚ) ^ 53) * ulp x := by
    rw [ulp_mul_two_pow]
    congr 1
    push_cast
    ring
  rw [e] at h1
  have h2 := abs_lt.mp h1
  rw [abs_le]
  constructor
  · apply roundHalfEven_ge_of_ge
    rw [le_div_iff₀ hu]
    push_cast
    linarith [h2.1]
  · apply roundHalfEven_le_of_le
    rw [div_le_iff₀ hu]
    push_cast
    linarith [h2.2]

/-- Rounding twice is rounding once. -/
theorem fl_idem (x : ℚ) : fl (fl x) = fl x := by
  have h : fl x = (roundHalfEven (x / ulp x) : ℚ) * (2 : ℚ) ^ (max (exponent x) (-1022) - 52) :=
    rfl
  rw [h]
  apply fl_eq_self _ _ (fl_abs_quot_le x)
  have := le_max_right (exponent x) (-1022)
  omega

theorem fl_le_of_le {x b : ℚ} (h : x ≤ b) (hb : fl b = b) : fl x ≤ b := by
  have := fl_mono h
  rwa [hb] at this

theorem le_fl_of_le {a x : ℚ} (h : a ≤ x) (ha : fl a = a) : a ≤ fl x := by
  have := fl_mono h
  rwa [ha] at this

theorem fl_intCast (n : ℤ) (h : |n| ≤ 2 ^ 53) : fl (n : ℚ) = n := by
  have := fl_eq_self n 0 h (by norm_num)
  simpa using this

/-! ## Numbers: order, overflow, exact operations -/

theorem fin_le_fin_iff (a b : ℚ) : Value.fin a ≤ Value.fin b ↔ a ≤ b := by
  show Value.leb (Value.fin a) (Value.fin b) = true ↔ a ≤ b
  simp [Value.leb]

theorem fin_le_posInf (a : ℚ) : Value.fin a ≤ Value.posInf := by
  show Value.leb (Value.fin a) Value.posInf = true
  rfl

theorem not_fin_le_negInf (a : ℚ) : ¬ (Value.fin a ≤ Value.negInf) := by
  show ¬ (Value.leb (Value.fin a) Value.negInf = true)
  simp [Value.leb]

theorem fin_le_cases {a : ℚ} {v : Value} (h : Value.fin a ≤ v) :
    (∃ b, v = Value.fin b ∧ a ≤ b) ∨ v = Value.posInf := by
  cases v with
  | negInf => exact absurd h (not_fin_le_negInf a)
  | fin b => exact Or.inl ⟨b, rfl, (fin_le_fin_iff a b).mp h⟩
  | posInf => exact Or.inr rfl

theorem round64_cases (x : ℚ) :
    (round64 x = Value.posInf ∧ (2 : ℚ) ^ 1024 ≤ fl x) ∨
    (round64 x = Value.negInf ∧ fl x ≤ -(2 : ℚ) ^ 1024) ∨
    (round64 x = Value.fin (fl x) ∧ -(2 : ℚ) ^ 1024 < fl x ∧ fl x < (2 : ℚ) ^ 1024) := by
  unfold round64
  simp only []
  by_cases h1 : (2 : ℚ) ^ 1024 ≤ fl x
  · rw [if_pos h1]
    exact Or.inl ⟨rfl, h1⟩
  · rw [if_neg h1]
    by_cases h2 : fl x ≤ -(2 : ℚ) ^ 1024
    · rw [if_pos h2]
      exact Or.inr (Or.inl ⟨rfl, h2⟩)
    · rw [if_neg h2]
      exact Or.inr (Or.inr ⟨rfl, not_le.mp h2, not_le.mp h1⟩)

/-- Rounding to a Number is monotone. -/
theorem round64_mono {x y : ℚ} (h : x ≤ y) : round64 x ≤ round64 y := by
  have hm := fl_mono h
  have hp : (0 : ℚ) < (2 : ℚ) ^ 1024 := by positivity
  rcases round64_cases x with ⟨e1, h1⟩ | ⟨e1, h1⟩ | ⟨e1, h1, h1'⟩ <;>
  rcases round64_cases y with ⟨e2, h2⟩ | ⟨e2, h2⟩ | ⟨e2, h2, h2'⟩ <;>
  rw [e1, e2]
  · rfl
  · exfalso; linarith
  · exfalso; linarith
  · rfl
  · rfl
  · rfl
  · rfl
  · exfalso; linarith
  · exact (fin_le_fin_iff _ _).mpr hm

theorem round64_eq_fin_imp {x s : ℚ} (h : round64 x = Value.fin s) : s = fl x ∧ fl s = s := by
  rcases round64_cases x with ⟨e1, _⟩ | ⟨e1, _⟩ | ⟨e1, _, _⟩
  · rw [e1] at h; exact Value.noConfusion h
  · rw [e1] at h; exact Value.noConfusion h
  · rw [e1] at h
    have : fl x = s := Value.fin.inj h
    rw [← this]
    exact ⟨rfl, fl_idem x⟩

theorem fl_two_pow_thousand : fl ((2 : ℚ) ^ 1000) = (2 : ℚ) ^ 1000 := by
  have := fl_eq_self 1 1000 (by norm_num) (by norm_num)
  rw [zpow_ofNat, Int.cast_one, one_mul] at this
  exact this

theorem fl_neg_two_pow_thousand : fl (-(2 : ℚ) ^ 1000) = -(2 : ℚ) ^ 1000 := by
  have := fl_eq_self (-1) 1000 (by norm_num) (by norm_num)
  rw [zpow_ofNat, Int.cast_neg, Int.cast_one, neg_one_mul] at this
  exact this

theorem round64_eq_fin_of_abs_le (x : ℚ) (h : |x| ≤ (2 : ℚ) ^ 1000) :
    round64 x = Value.fin (fl x) := by
  have h' := abs_le.mp h
  have h1 : fl x ≤ (2 : ℚ) ^ 1000 := fl_le_of_le h'.2 fl_two_pow_thousand
  have h2 : -(2 : ℚ) ^ 1000 ≤ fl x := le_fl_of_le h'.1 fl_neg_two_pow_thousand
  have h3 : (2 : ℚ) ^ 1000 < (2 : ℚ) ^ 1024 := by
    apply pow_lt_pow_right₀ (by norm_num) (by norm_num)
  unfold round64
  simp only []
  rw [if_neg (by linarith), if_neg (by linarith)]

theorem two_pow_53_le : ((2 : ℚ) ^ 53) ≤ (2 : ℚ) ^ 1000 :=
  pow_le_pow_right₀ (by norm_num) (by norm_num)

theorem round64_intCast (n : ℤ) (h : |n| ≤ 2 ^ 53) : round64 (n : ℚ) = Value.fin (n : ℚ) := by
  have h1 : |(n : ℚ)| ≤ (2 : ℚ) ^ 53 := by
    have : ((|n| : ℤ) : ℚ) ≤ ((2 ^ 53 : ℤ) : ℚ) := by exact_mod_cast h
    rw [Int.cast_abs] at this
    simpa using this
  rw [round64_eq_fin_of_abs_le _ (le_trans h1 two_pow_53_le), fl_intCast n h]

theorem ofInt_eq (n : ℤ) (h : |n| ≤ 2 ^ 53) : ofInt n = some (Value.fin (n : ℚ)) := by
  unfold ofInt
  rw [round64_intCast n h]

theorem numAdd_fin (x y : ℚ) :
    numAdd (some (Value.fin x)) (some (Value.fin y)) = some (round64 (x + y)) := rfl

theorem numSub_fin (x y : ℚ) :
    numSub (some (Value.fin x)) (some (Value.fin y)) = some (round64 (x - y)) := rfl

theorem numMul_fin (x y : ℚ) :
    numMul (some (Value.fin x)) (some (Value.fin y)) = some (round64 (x * y)) := rfl

theorem numAdd_int (a b : ℤ) (h : |a + b| ≤ 2 ^ 53) :
    numAdd (some (Value.fin (a : ℚ))) (some (Value.fin (b : ℚ)))
      = some (Value.fin ((a + b : ℤ) : ℚ)) := by
  rw [numAdd_fin, ← Int.cast_add, round64_intCast _ h]

theorem numSub_int (a b : ℤ) (h : |a - b| ≤ 2 ^ 53) :
    numSub (some (Value.fin (a : ℚ))) (some (Value.fin (b : ℚ)))
      = some (Value.fin ((a - b : ℤ) : ℚ)) := by
  rw [numSub_fin, ← Int.cast_sub, round64_intCast _ h]

theorem numMul_int (a b : ℤ) (h : |a * b| ≤ 2 ^ 53) :
    numMul (some (Value.fin (a : ℚ))) (some (Value.fin (b : ℚ)))
      = some (Value.fin ((a * b : ℤ) : ℚ)) := by
  rw [numMul_fin, ← Int.cast_mul, round64_intCast _ h]

theorem numGt_int (a b : ℤ) :
    numGt (some (Value.fin (a : ℚ))) (some (Value.fin (b : ℚ))) = decide (b < a) := by
  show decide ((b : ℚ) < (a : ℚ)) = decide (b < a)
  simp

theorem abs_le_two_pow_53 {n : ℤ} (h1 : -9007199254740992 ≤ n) (h2 : n ≤ 9007199254740992) :
    |n| ≤ 2 ^ 53 := by
  rw [abs_le]
  constructor
  · calc -(2 : ℤ) ^ 53 = -9007199254740992 := by norm_num
      _ ≤ n := h1
  · calc n ≤ 9007199254740992 := h2
      _ = 2 ^ 53 := by norm_num

theorem ofInt_small (n : ℤ) (h1 : -9007199254740992 ≤ n) (h2 : n ≤ 9007199254740992) :
    ofInt n = some (Value.fin (n : ℚ)) :=
  ofInt_eq n (abs_le_two_pow_53 h1 h2)

theorem numAdd_small (a b : ℤ) (h1 : -9007199254740992 ≤ a + b)
    (h2 : a + b ≤ 9007199254740992) :
    numAdd (some (Value.fin (a : ℚ))) (some (Value.fin (b : ℚ)))
      = some (Value.fin ((a + b : ℤ) : ℚ)) :=
  numAdd_int a b (abs_le_two_pow_53 h1 h2)

theorem numSub_small (a b : ℤ) (h1 : -9007199254740992 ≤ a - b)
    (h2 : a - b ≤ 9007199254740992) :
    numSub (some (Value.fin (a : ℚ))) (some (Value.fin (b : ℚ)))
      = some (Value.fin ((a - b : ℤ) : ℚ)) :=
  numSub_int a b (abs_le_two_pow_53 h1 h2)

theorem numMul_small (a b : ℤ) (h1 : -9007199254740992 ≤ a * b)
    (h2 : a * b ≤ 9007199254740992) :
    numMul (some (Value.fin (a : ℚ))) (some (Value.fin (b : ℚ)))
      = some (Value.fin ((a * b : ℤ) : ℚ)) :=
  numMul_int a b (abs_le_two_pow_53 h1 h2)

/-! ## Helper lemmas on the estimator -/

theorem pricePerSqFt_eq (data : FormData) :
    pricePerSqFt data = 500 + 150 * yesNo data.prefarea + 100 * yesNo data.mainroad
      + 50 * yesNo data.basement + 25 * yesNo data.hotwaterheating
      + 75 * yesNo data.airconditioning + 50 * yesNo data.guestroom := by
  unfold pricePerSqFt yesNo
  split_ifs <;> rfl

theorem yesNo_cases (v : Option String) : yesNo v = 0 ∨ yesNo v = 1 := by
  unfold yesNo
  split_ifs
  · exact Or.inr rfl
  · exact Or.inl rfl

theorem pricePerSqFt_bounds (data : FormData) :
    500 ≤ pricePerSqFt data ∧ pricePerSqFt data ≤ 950 := by
  rw [pricePerSqFt_eq]
  rcases yesNo_cases data.prefarea with h1 | h1 <;>
  rcases yesNo_cases data.mainroad with h2 | h2 <;>
  rcases yesNo_cases data.basement with h3 | h3 <;>
  rcases yesNo_cases data.hotwaterheating with h4 | h4 <;>
  rcases yesNo_cases data.airconditioning with h5 | h5 <;>
  rcases yesNo_cases data.guestroom with h6 | h6 <;>
  rw [h1, h2, h3, h4, h5, h6] <;> decide

theorem furnishingBonus_bounds (v : Option String) :
    0 ≤ furnishingBonus v ∧ furnishingBonus v ≤ 500000 := by
  unfold furnishingBonus
  split_ifs <;> decide

theorem mul_perSqFt_bounds {a q B : ℤ} (hB : 0 ≤ B) (ha1 : -B ≤ a) (ha2 : a ≤ B)
    (hq1 : 500 ≤ q) (hq2 : q ≤ 950) : -(B * 950) ≤ a * q ∧ a * q ≤ B * 950 := by
  constructor
  · nlinarith
  · nlinarith

/-- The price before the variation is the exact total when the parsed fields are integers
of magnitude at most `10^10`: no operation rounds. -/
theorem preNoisePrice_exact (data : FormData)
    (area bedrooms bathrooms stories parking : Int)
    (harea : parseIntProp data.area = some (Value.fin area))
    (hbedrooms : parseIntProp data.bedrooms = some (Value.fin bedrooms))
    (hbathrooms : parseIntProp data.bathrooms = some (Value.fin bathrooms))
    (hstories : parseIntProp data.stories = some (Value.fin stories))
    (hparking : parseIntProp data.parking = some (Value.fin parking))
    (barea : -10000000000 ≤ area ∧ area ≤ 10000000000)
    (bbedrooms : -10000000000 ≤ bedrooms ∧ bedrooms ≤ 10000000000)
    (bbathrooms : -10000000000 ≤ bathrooms ∧ bathrooms ≤ 10000000000)
    (bstories : -10000000000 ≤ stories ∧ stories ≤ 10000000000)
    (bparking : -10000000000 ≤ parking ∧ parking ≤ 10000000000) :
    preNoisePrice data = some (Value.fin
      ((formulaTotal data area bedrooms bathrooms stories parking : ℤ) : ℚ)) := by
  obtain ⟨hq1, hq2⟩ := pricePerSqFt_bounds data
  obtain ⟨hf1, hf2⟩ := furnishingBonus_bounds data.furnishingstatus
  obtain ⟨hp1, hp2⟩ := mul_perSqFt_bounds (by norm_num) barea.1 barea.2 hq1 hq2
  have hform : formulaTotal data area bedrooms bathrooms stories parking
      = area * pricePerSqFt data + (bedrooms - 1) * 100000 + (bathrooms - 1) * 150000
        + (if stories > 1 then (stories - 1) * 200000 else 0)
        + parking * 100000 + furnishingBonus data.furnishingstatus := by
    unfold formulaTotal
    rw [pricePerSqFt_eq]
  rw [hform]
  generalize hP : area * pricePerSqFt data = P at hp1 hp2 ⊢
  have e1 : numMul (some (Value.fin (area : ℚ))) (ofInt (pricePerSqFt data))
      = some (Value.fin (P : ℚ)) := by
    rw [ofInt_small _ (by omega) (by omega),
      numMul_small _ _ (by rw [hP]; omega) (by rw [hP]; omega), hP]
  have e2 : numMul (numSub (some (Value.fin (bedrooms : ℚ))) (ofInt 1)) (ofInt 100000)
      = some (Value.fin (((bedrooms - 1) * 100000 : ℤ) : ℚ)) := by
    rw [ofInt_small 1 (by omega) (by omega), ofInt_small 100000 (by omega) (by omega),
      numSub_small _ _ (by omega) (by omega), numMul_small _ _ (by omega) (by omega)]
  have e3 : numMul (numSub (some (Value.fin (bathrooms : ℚ))) (ofInt 1)) (ofInt 150000)
      = some (Value.fin (((bathrooms - 1) * 150000 : ℤ) : ℚ)) := by
    rw [ofInt_small 1 (by omega) (by omega), ofInt_small 150000 (by omega) (by omega),
      numSub_small _ _ (by omega) (by omega), numMul_small _ _ (by omega) (by omega)]
  have e4 : numMul (numSub (some (Value.fin (stories : ℚ))) (ofInt 1)) (ofInt 200000)
      = some (Value.fin (((stories - 1) * 200000 : ℤ) : ℚ)) := by
    rw [ofInt_small 1 (by omega) (by omega), ofInt_small 200000 (by omega) (by omega),
      numSub_small _ _ (by omega) (by omega), numMul_small _ _ (by omega) (by omega)]
  have e5 : numMul (some (Value.fin (parking : ℚ))) (ofInt 100000)
      = some (Value.fin ((parking * 100000 : ℤ) : ℚ)) := by
    rw [ofInt_small 100000 (by omega) (by omega), numMul_small _ _ (by omega) (by omega)]
  have e6 : numGt (some (Value.fin (stories : ℚ))) (ofInt 1) = decide (1 < stories) := by
    rw [ofInt_small 1 (by omega) (by omega)]
    exact numGt_int stories 1
  unfold preNoisePrice
  simp only []
  rw [harea, hbedrooms, hbathrooms, hstories, hparking, e1, e2, e3, e4, e5, e6,
    numAdd_small _ _ (by omega) (by omega), numAdd_small _ _ (by omega) (by omega)]
  rw [ofInt_small 500000 (by omega) (by omega), ofInt_small 250000 (by omega) (by omega)]
  unfold furnishingBonus at hf1 hf2 ⊢
  by_cases hs : 1 < stories
  · rw [if_pos (decide_eq_true hs), if_pos hs,
      numAdd_small _ _ (by omega) (by omega), numAdd_small _ _ (by omega) (by omega)]
    split_ifs
    · rw [numAdd_small _ _ (by omega) (by omega)]
    · rw [numAdd_small _ _ (by omega) (by omega)]
    · congr 3
      omega
  · rw [if_neg (show ¬ (decide (1 < stories) = true) by simpa using hs), if_neg hs,
      numAdd_small _ _ (by omega) (by omega)]
    split_ifs
    · rw [numAdd_small _ _ (by omega) (by omega)]
      congr 3
      omega
    · rw [numAdd_small _ _ (by omega) (by omega)]
      congr 3
      omega
    · congr 3
      omega

/-! ## Monotonicity of the operations -/

theorem rises_refl (x : JSNumber) : Rises x x := by
  intro a h
  exact ⟨Value.fin a, h, (fin_le_fin_iff a a).mpr (le_refl a)⟩

theorem rises_of_le {a a' : Value} (h : a ≤ a') : Rises (some a) (some a') := by
  intro s hs
  cases Option.some.inj hs
  exact ⟨a', rfl, h⟩

theorem numAdd_eq_fin {x y : JSNumber} {s : ℚ} (h : numAdd x y = some (Value.fin s)) :
    ∃ a b, x = some (Value.fin a) ∧ y = some (Value.fin b) ∧
      round64 (a + b) = Value.fin s := by
  rcases x with _ | (_ | a | _) <;> rcases y with _ | (_ | b | _) <;>
    simp only [numAdd] at h <;>
    first
      | exact ⟨a, b, rfl, rfl, Option.some.inj h⟩
      | exact absurd h (by simp)

theorem numSub_eq_fin {x y : JSNumber} {s : ℚ} (h : numSub x y = some (Value.fin s)) :
    ∃ a b, x = some (Value.fin a) ∧ y = some (Value.fin b) ∧
      round64 (a - b) = Value.fin s := by
  rcases x with _ | (_ | a | _) <;> rcases y with _ | (_ | b | _) <;>
    simp only [numSub] at h <;>
    first
      | exact ⟨a, b, rfl, rfl, Option.some.inj h⟩
      | exact absurd h (by simp)

theorem infTimes_ne_fin (p : Bool) (v : Value) (s : ℚ) : infTimes p v ≠ some (Value.fin s) := by
  unfold infTimes
  cases v with
  | negInf => cases p <;> simp
  | fin y =>
    simp only []
    by_cases h0 : y = 0
    · rw [if_pos h0]
      simp
    · rw [if_neg h0]
      by_cases h1 : (0 < y) = p
      · rw [if_pos h1]
        simp
      · rw [if_neg h1]
        simp
  | posInf => cases p <;> simp

theorem numMul_eq_fin {x y : JSNumber} {s : ℚ} (h : numMul x y = some (Value.fin s)) :
    ∃ a b, x = some (Value.fin a) ∧ y = some (Value.fin b) ∧
      round64 (a * b) = Value.fin s := by
  rcases x with _ | (_ | a | _) <;> rcases y with _ | (_ | b | _) <;>
    simp only [numMul] at h <;>
    first
      | exact ⟨a, b, rfl, rfl, Option.some.inj h⟩
      | exact absurd h (infTimes_ne_fin _ _ _)
      | exact absurd h (by simp)

theorem round64_self_of_eq_fin {x s : ℚ} (h : round64 x = Value.fin s) :
    round64 s = Value.fin s := by
  rcases round64_cases x with ⟨e1, _⟩ | ⟨e1, _⟩ | ⟨e1, h1, h2⟩
  · rw [e1] at h; exact Value.noConfusion h
  · rw [e1] at h; exact Value.noConfusion h
  · rw [e1] at h
    have hs : fl x = s := Value.fin.inj h
    have hfl : fl s = s := by rw [← hs]; exact fl_idem x
    unfold round64
    simp only []
    rw [hfl, ← hs, if_neg (not_le.mpr h2), if_neg (not_le.mpr h1)]

/-- A finite sum is a binary64 number. -/
theorem numAdd_isDouble {x y : JSNumber} {s : ℚ} (h : numAdd x y = some (Value.fin s)) :
    round64 s = Value.fin s := by
  obtain ⟨a, b, _, _, hr⟩ := numAdd_eq_fin h
  exact round64_self_of_eq_fin hr

theorem numAdd_fin_posInf (a : ℚ) :
    numAdd (some (Value.fin a)) (some Value.posInf) = some Value.posInf := rfl

theorem numAdd_posInf_fin (a : ℚ) :
    numAdd (some Value.posInf) (some (Value.fin a)) = some Value.posInf := rfl

theorem numAdd_posInf_posInf :
    numAdd (some Value.posInf) (some Value.posInf) = some Value.posInf := rfl

/-- Addition is monotone. -/
theorem rises_add {x x' y y' : JSNumber} (hx : Rises x x') (hy : Rises y y') :
    Rises (numAdd x y) (numAdd x' y') := by
  intro s hs
  obtain ⟨a, b, rfl, rfl, hr⟩ := numAdd_eq_fin hs
  obtain ⟨v', rfl, hv⟩ := hx a rfl
  obtain ⟨w', rfl, hw⟩ := hy b rfl
  rcases fin_le_cases hv with ⟨a', rfl, ha⟩ | rfl <;>
  rcases fin_le_cases hw with ⟨b', rfl, hb⟩ | rfl
  · refine ⟨round64 (a' + b'), rfl, ?_⟩
    rw [← hr]
    exact round64_mono (add_le_add ha hb)
  · exact ⟨Value.posInf, rfl, fin_le_posInf s⟩
  · exact ⟨Value.posInf, rfl, fin_le_posInf s⟩
  · exact ⟨Value.posInf, rfl, fin_le_posInf s⟩

/-- Subtraction of a finite constant is monotone. -/
theorem rises_sub_const {x x' : JSNumber} (c : ℚ) (hx : Rises x x') :
    Rises (numSub x (some (Value.fin c))) (numSub x' (some (Value.fin c))) := by
  intro s hs
  obtain ⟨a, b, rfl, hb, hr⟩ := numSub_eq_fin hs
  cases Option.some.inj hb
  obtain ⟨v', rfl, hv⟩ := hx a rfl
  rcases fin_le_cases hv with ⟨a', rfl, ha⟩ | rfl
  · refine ⟨round64 (a' - c), rfl, ?_⟩
    rw [← hr]
    exact round64_mono (sub_le_sub_right ha c)
  · exact ⟨Value.posInf, rfl, fin_le_posInf s⟩

/-- Multiplication by a positive finite constant is monotone. -/
theorem rises_mul_const {x x' : JSNumber} (c : ℚ) (hc : 0 < c) (hx : Rises x x') :
    Rises (numMul x (some (Value.fin c))) (numMul x' (some (Value.fin c))) := by
  intro s hs
  obtain ⟨a, b, rfl, hb, hr⟩ := numMul_eq_fin hs
  cases Option.some.inj hb
  obtain ⟨v', rfl, hv⟩ := hx a rfl
  rcases fin_le_cases hv with ⟨a', rfl, ha⟩ | rfl
  · refine ⟨round64 (a' * c), rfl, ?_⟩
    rw [← hr]
    exact round64_mono (mul_le_mul_of_nonneg_right ha hc.le)
  · refine ⟨Value.posInf, ?_, fin_le_posInf s⟩
    show infTimes true (Value.fin c) = some Value.posInf
    unfold infTimes
    simp only []
    rw [if_neg hc.ne', if_pos (by simp [hc])]

/-- Multiplication of a non-negative finite Number by a larger finite factor is not
smaller. -/
theorem rises_mul_left {a c c' : ℚ} (ha : 0 ≤ a) (hc : c ≤ c') :
    Rises (numMul (some (Value.fin a)) (some (Value.fin c)))
      (numMul (some (Value.fin a)) (some (Value.fin c'))) := by
  apply rises_of_le
  exact round64_mono (mul_le_mul_of_nonneg_left hc ha)

/-- Adding a Number that is not negative to a binary64 number does not lower it. -/
theorem rises_add_nonneg {x x' t : JSNumber} (hx : Rises x x')
    (hd : ∀ s, x = some (Value.fin s) → round64 s = Value.fin s)
    (ht : ∃ w, t = some w ∧ Value.fin 0 ≤ w) :
    Rises x (numAdd x' t) := by
  intro s hs
  have hfl := hd s hs
  obtain ⟨v', rfl, hv⟩ := hx s hs
  obtain ⟨w, rfl, hw⟩ := ht
  rcases fin_le_cases hv with ⟨a', rfl, ha⟩ | rfl <;>
  rcases fin_le_cases hw with ⟨b', rfl, hb⟩ | rfl
  · refine ⟨round64 (a' + b'), rfl, ?_⟩
    have h1 : s ≤ a' + b' := by linarith
    have h2 := round64_mono h1
    rwa [hfl] at h2
  · exact ⟨Value.posInf, rfl, fin_le_posInf s⟩
  · exact ⟨Value.posInf, rfl, fin_le_posInf s⟩
  · exact ⟨Value.posInf, rfl, fin_le_posInf s⟩

theorem ofInt_one : ofInt 1 = some (Value.fin 1) := by decide!

theorem ofInt_100000 : ofInt 100000 = some (Value.fin 100000) := by decide!

theorem ofInt_150000 : ofInt 150000 = some (Value.fin 150000) := by decide!

theorem ofInt_200000 : ofInt 200000 = some (Value.fin 200000) := by decide!

theorem ofInt_250000 : ofInt 250000 = some (Value.fin 250000) := by decide!

theorem ofInt_500000 : ofInt 500000 = some (Value.fin 500000) := by decide!

theorem round64_zero : round64 0 = Value.fin 0 := by decide!

theorem ltb_of_ltb_of_le {c : ℚ} {a a' : Value} (h1 : Value.ltb (Value.fin c) a = true)
    (h2 : a ≤ a') : Value.ltb (Value.fin c) a' = true := by
  cases a with
  | negInf => simp [Value.ltb] at h1
  | fin x =>
    rcases fin_le_cases h2 with ⟨y, rfl, hy⟩ | rfl
    · simp only [Value.ltb, decide_eq_true_eq] at h1 ⊢
      linarith
    · rfl
  | posInf =>
    cases a' with
    | negInf => exact absurd h2 (by show ¬ (Value.leb Value.posInf Value.negInf = true); simp [Value.leb])
    | fin y => exact absurd h2 (by show ¬ (Value.leb Value.posInf (Value.fin y) = true); simp [Value.leb])
    | posInf => rfl

/-- The term the stories add is a Number that is not negative. -/
theorem storiesTerm_nonneg (a : Value) (h : Value.ltb (Value.fin 1) a = true) :
    ∃ w, numMul (numSub (some a) (some (Value.fin 1))) (some (Value.fin 200000)) = some w ∧
      Value.fin 0 ≤ w := by
  cases a with
  | negInf => simp [Value.ltb] at h
  | posInf => exact ⟨Value.posInf, by decide!, fin_le_posInf 0⟩
  | fin b =>
    simp only [Value.ltb, decide_eq_true_eq] at h
    have h1 : round64 0 ≤ round64 (b - 1) := round64_mono (by linarith)
    rw [round64_zero] at h1
    rw [numSub_fin]
    rcases fin_le_cases h1 with ⟨c, hc, hc0⟩ | hc
    · rw [hc, numMul_fin]
      refine ⟨round64 (c * 200000), rfl, ?_⟩
      have h2 : round64 0 ≤ round64 (c * 200000) := round64_mono (by positivity)
      rwa [round64_zero] at h2
    · rw [hc]
      exact ⟨Value.posInf, by decide!, fin_le_posInf 0⟩

/-- The adjustment for the stories is monotone in the price and in the stories. -/
theorem storiesStep_rises {p p' S S' : JSNumber} (hp : Rises p p')
    (hd : ∀ s, p = some (Value.fin s) → round64 s = Value.fin s)
    (hS : S = S' ∨ ∃ a a', S = some a ∧ S' = some a' ∧ a ≤ a') :
    Rises (storiesStep p S) (storiesStep p' S') := by
  unfold storiesStep
  rw [ofInt_one, ofInt_200000]
  rcases hS with rfl | ⟨a, a', rfl, rfl, hle⟩
  · by_cases g : numGt S (some (Value.fin 1)) = true
    · rw [if_pos g, if_pos g]
      exact rises_add hp (rises_refl _)
    · rw [if_neg g, if_neg g]
      exact hp
  · have e : ∀ v : Value, numGt (some v) (some (Value.fin 1)) = Value.ltb (Value.fin 1) v :=
      fun _ => rfl
    rw [e a, e a']
    by_cases g : Value.ltb (Value.fin 1) a = true
    · have g' := ltb_of_ltb_of_le g hle
      rw [if_pos g, if_pos g']
      exact rises_add hp
        (rises_mul_const 200000 (by norm_num) (rises_sub_const 1 (rises_of_le hle)))
    · rw [if_neg g]
      by_cases g' : Value.ltb (Value.fin 1) a' = true
      · rw [if_pos g']
        exact rises_add_nonneg hp hd (storiesTerm_nonneg a' g')
      · rw [if_neg g']
        exact hp

/-- The adjustment for the furnishing is monotone in the price and along unfurnished,
semi-furnished, furnished. -/
theorem furnishingStep_rises {p p' : JSNumber} {f f' : Option String} (hp : Rises p p')
    (hd : ∀ s, p = some (Value.fin s) → round64 s = Value.fin s)
    (hf : f = f' ∨ (f = some "unfurnished" ∧ f' = some "semi-furnished") ∨
      ((f = some "unfurnished" ∨ f = some "semi-furnished") ∧ f' = some "furnished")) :
    Rises (furnishingStep p f) (furnishingStep p' f') := by
  unfold furnishingStep
  rw [ofInt_250000, ofInt_500000]
  rcases hf with rfl | ⟨rfl, rfl⟩ | ⟨rfl | rfl, rfl⟩
  · by_cases h1 : f = some "furnished"
    · rw [if_pos h1, if_pos h1]
      exact rises_add hp (rises_refl _)
    · rw [if_neg h1, if_neg h1]
      by_cases h2 : f = some "semi-furnished"
      · rw [if_pos h2, if_pos h2]
        exact rises_add hp (rises_refl _)
      · rw [if_neg h2, if_neg h2]
        exact hp
  · rw [if_neg (by decide), if_neg (by decide), if_neg (by decide), if_pos rfl]
    exact rises_add_nonneg hp hd
      ⟨Value.fin 250000, rfl, (fin_le_fin_iff _ _).mpr (by norm_num)⟩
  · rw [if_neg (by decide), if_neg (by decide), if_pos rfl]
    exact rises_add_nonneg hp hd
      ⟨Value.fin 500000, rfl, (fin_le_fin_iff _ _).mpr (by norm_num)⟩
  · rw [if_neg (by decide), if_pos rfl, if_pos rfl]
    exact rises_add hp (rises_of_le ((fin_le_fin_iff _ _).mpr (by norm_num)))

/-- The price before the variation is monotone in each of its ingredients. -/
theorem totalOf_rises {A A' B B' C C' S S' P P' : JSNumber} {q q' : ℤ}
    {f f' : Option String}
    (hA : Rises (numMul A (ofInt q)) (numMul A' (ofInt q')))
    (hB : Rises B B') (hC : Rises C C')
    (hS : S = S' ∨ ∃ a a', S = some a ∧ S' = some a' ∧ a ≤ a')
    (hP : Rises P P')
    (hf : f = f' ∨ (f = some "unfurnished" ∧ f' = some "semi-furnished") ∨
      ((f = some "unfurnished" ∨ f = some "semi-furnished") ∧ f' = some "furnished")) :
    Rises (totalOf A q B C S P f) (totalOf A' q' B' C' S' P' f') := by
  unfold totalOf
  rw [ofInt_one, ofInt_100000, ofInt_150000]
  apply furnishingStep_rises _ (fun s hs => numAdd_isDouble hs) hf
  apply rises_add _ (rises_mul_const 100000 (by norm_num) hP)
  apply storiesStep_rises _ (fun s hs => numAdd_isDouble hs) hS
  apply rises_add _ (rises_mul_const 150000 (by norm_num) (rises_sub_const 1 hC))
  exact rises_add hA (rises_mul_const 100000 (by norm_num) (rises_sub_const 1 hB))

theorem ofInt_pricePerSqFt (data : FormData) :
    ofInt (pricePerSqFt data) = some (Value.fin ((pricePerSqFt data : ℤ) : ℚ)) := by
  have h := pricePerSqFt_bounds data
  exact ofInt_small _ (by omega) (by omega)

theorem pricePerSqFt_pos (data : FormData) : (0 : ℚ) < ((pricePerSqFt data : ℤ) : ℚ) := by
  have h := pricePerSqFt_bounds data
  have : (0 : ℤ) < pricePerSqFt data := by omega
  exact_mod_cast this

theorem yesNo_yes : yesNo (some "yes") = 1 := by decide

theorem yesNo_of_no {v : Option String} (h : v = some "no") : yesNo v = 0 := by
  subst h; decide

theorem preNoisePrice_eq_totalOf (data : FormData) :
    preNoisePrice data = totalOf (parseIntProp data.area) (pricePerSqFt data)
      (parseIntProp data.bedrooms) (parseIntProp data.bathrooms)
      (parseIntProp data.stories) (parseIntProp data.parking) data.furnishingstatus := rfl

/-- A change of the area alone, to a Number not smaller, does not lower the product with
the price per square foot. -/
theorem areaTerm_rises (x x' : JSNumber) (data : FormData) (hx : Rises x x') :
    Rises (numMul x (ofInt (pricePerSqFt data))) (numMul x' (ofInt (pricePerSqFt data))) := by
  rw [ofInt_pricePerSqFt]
  exact rises_mul_const _ (pricePerSqFt_pos data) hx

/-- A higher price per square foot does not lower the product with an area that is not
negative. -/
theorem perSqFt_rises {a : ℚ} (ha : 0 ≤ a) (d d' : FormData)
    (h : pricePerSqFt d ≤ pricePerSqFt d') :
    Rises (numMul (some (Value.fin a)) (ofInt (pricePerSqFt d)))
      (numMul (some (Value.fin a)) (ofInt (pricePerSqFt d'))) := by
  rw [ofInt_pricePerSqFt, ofInt_pricePerSqFt]
  exact rises_mul_left ha (by exact_mod_cast h)

/-! ## Monotonicity of the total -/

/-- C10. The total before the variation is monotone: when a record with a non-negative area
and a finite total is changed in exactly one field, by raising the area, the bedrooms, the
bathrooms, the stories or the parking, by switching an amenity from `no` to `yes`, or by
moving the furnishing status up along unfurnished, semi-furnished, furnished, the changed
record still has a total, a Number that is not `NaN`, and it is not smaller. -/
theorem preNoisePrice_monotone (d d' : FormData) (a t : ℚ) (hup : Upgrade d d')
    (ha : parseIntProp d.area = some (Value.fin a)) (hnn : 0 ≤ a)
    (ht : preNoisePrice d = some (Value.fin t)) :
    ∃ t', preNoisePrice d' = some t' ∧ Value.fin t ≤ t' := by
  suffices h : Rises (preNoisePrice d) (preNoisePrice d') from h t ht
  rw [preNoisePrice_eq_totalOf, preNoisePrice_eq_totalOf]
  cases hup with
  | area s a0 a' e1 e2 e3 =>
    refine totalOf_rises (areaTerm_rises _ _ d ?_) (rises_refl _) (rises_refl _)
      (Or.inl rfl) (rises_refl _) (Or.inl rfl)
    rw [e1]
    show Rises (some a0) (parseInt s)
    rw [e2]
    exact rises_of_le e3
  | bedrooms s a0 a' e1 e2 e3 =>
    refine totalOf_rises (rises_refl _) ?_ (rises_refl _)
      (Or.inl rfl) (rises_refl _) (Or.inl rfl)
    rw [e1]
    show Rises (some a0) (parseInt s)
    rw [e2]
    exact rises_of_le e3
  | bathrooms s a0 a' e1 e2 e3 =>
    refine totalOf_rises (rises_refl _) (rises_refl _) ?_
      (Or.inl rfl) (rises_refl _) (Or.inl rfl)
    rw [e1]
    show Rises (some a0) (parseInt s)
    rw [e2]
    exact rises_of_le e3
  | stories s a0 a' e1 e2 e3 =>
    exact totalOf_rises (rises_refl _) (rises_refl _) (rises_refl _)
      (Or.inr ⟨a0, a', e1, e2, e3⟩) (rises_refl _) (Or.inl rfl)
  | parking s a0 a' e1 e2 e3 =>
    refine totalOf_rises (rises_refl _) (rises_refl _) (rises_refl _)
      (Or.inl rfl) ?_ (Or.inl rfl)
    rw [e1]
    show Rises (some a0) (parseInt s)
    rw [e2]
    exact rises_of_le e3
  | prefarea e | mainroad e | basement e | hotwaterheating e | airconditioning e
  | guestroom e =>
    refine totalOf_rises ?_ (rises_refl _) (rises_refl _)
      (Or.inl rfl) (rises_refl _) (Or.inl rfl)
    rw [ha]
    apply perSqFt_rises hnn
    rw [pricePerSqFt_eq, pricePerSqFt_eq]
    simp only [yesNo_yes, yesNo_of_no e]
    omega
  | semiFurnished e =>
    exact totalOf_rises (rises_refl _) (rises_refl _) (rises_refl _)
      (Or.inl rfl) (rises_refl _) (Or.inr (Or.inl ⟨e, rfl⟩))
  | furnished e =>
    exact totalOf_rises (rises_refl _) (rises_refl _) (rises_refl _)
      (Or.inl rfl) (rises_refl _) (Or.inr (Or.inr ⟨e, rfl⟩))

theorem preNoisePrice_monotone_witness :
    Upgrade allAmenities { allAmenities with bedrooms := some "3" } ∧
    parseIntProp allAmenities.area = some (Value.fin 1000) ∧ (0 : ℚ) ≤ 1000 ∧
    preNoisePrice allAmenities = some (Value.fin 950000) ∧
    ∃ t', preNoisePrice { allAmenities with bedrooms := some "3" } = some t' ∧
      Value.fin 950000 ≤ t' :=
  ⟨Upgrade.bedrooms allAmenities "3" (Value.fin 1) (Value.fin 3)
      (by decide!) (by decide!) (by decide!),
    by decide!, by norm_num, by decide!,
    preNoisePrice_monotone allAmenities { allAmenities with bedrooms := some "3" } 1000 950000
      (Upgrade.bedrooms allAmenities "3" (Value.fin 1) (Value.fin 3)
        (by decide!) (by decide!) (by decide!))
      (by decide!) (by norm_num) (by decide!)⟩

/-! ## The total before the variation and the formula of the specification -/

/-- C2 (the claim fails). With the bedrooms `9007199254740993` (which is `2^53 + 1`) every
numeric field parses as an integer, the bedrooms to the Number `9007199254740992`, and the
price before the variation is `900719925474099593216`, neither the value
`900719925474099700000` of the formula at the integers written in the fields nor its value
`900719925474099600000` at the parsed Numbers. -/
theorem preNoisePrice_large_bedrooms :
    parseIntProp (plainRecord "1000" "9007199254740993" "no" "unfurnished").area
      = some (Value.fin 1000) ∧
    parseIntProp (plainRecord "1000" "9007199254740993" "no" "unfurnished").bedrooms
      = some (Value.fin 9007199254740992) ∧
    parseIntProp (plainRecord "1000" "9007199254740993" "no" "unfurnished").bathrooms
      = some (Value.fin 1) ∧
    parseIntProp (plainRecord "1000" "9007199254740993" "no" "unfurnished").stories
      = some (Value.fin 1) ∧
    parseIntProp (plainRecord "1000" "9007199254740993" "no" "unfurnished").parking
      = some (Value.fin 0) ∧
    preNoisePrice (plainRecord "1000" "9007199254740993" "no" "unfurnished")
      = some (Value.fin 900719925474099593216) ∧
    formulaTotal (plainRecord "1000" "9007199254740993" "no" "unfurnished")
      1000 9007199254740993 1 1 0 = 900719925474099700000 ∧
    formulaTotal (plainRecord "1000" "9007199254740993" "no" "unfurnished")
      1000 9007199254740992 1 1 0 = 900719925474099600000 := by
  refine ⟨?_, ?_, ?_, ?_, ?_, ?_, ?_, ?_⟩ <;> decide!

/-- C2 (amended). When the five numeric fields parse as integers of magnitude at most
`10^10`, the value of `price` just before the random variation is the Number whose value is
the formula of the specification: the area times the price per square foot with its six
bonuses, plus the terms of the bedrooms, bathrooms, stories and parking, plus the
furnishing bonus. -/
theorem preNoisePrice_eq_formulaTotal (data : FormData)
    (area bedrooms bathrooms stories parking : Int)
    (harea : parseIntProp data.area = some (Value.fin area))
    (hbedrooms : parseIntProp data.bedrooms = some (Value.fin bedrooms))
    (hbathrooms : parseIntProp data.bathrooms = some (Value.fin bathrooms))
    (hstories : parseIntProp data.stories = some (Value.fin stories))
    (hparking : parseIntProp data.parking = some (Value.fin parking))
    (barea : |area| ≤ 10 ^ 10) (bbedrooms : |bedrooms| ≤ 10 ^ 10)
    (bbathrooms : |bathrooms| ≤ 10 ^ 10) (bstories : |stories| ≤ 10 ^ 10)
    (bparking : |parking| ≤ 10 ^ 10) :
    preNoisePrice data = some (Value.fin
      ((formulaTotal data area bedrooms bathrooms stories parking : ℤ) : ℚ)) := by
  have e : (10 : ℤ) ^ 10 = 10000000000 := by norm_num
  rw [e, abs_le] at barea bbedrooms bbathrooms bstories bparking
  exact preNoisePrice_exact data area bedrooms bathrooms stories parking
    harea hbedrooms hbathrooms hstories hparking barea bbedrooms bbathrooms bstories bparking

theorem preNoisePrice_eq_formulaTotal_witness :
    parseIntProp allAmenities.area = some (Value.fin ((1000 : ℤ) : ℚ)) ∧
    parseIntProp allAmenities.bedrooms = some (Value.fin ((1 : ℤ) : ℚ)) ∧
    parseIntProp allAmenities.bathrooms = some (Value.fin ((1 : ℤ) : ℚ)) ∧
    parseIntProp allAmenities.stories = some (Value.fin ((1 : ℤ) : ℚ)) ∧
    parseIntProp allAmenities.parking = some (Value.fin ((0 : ℤ) : ℚ)) ∧
    preNoisePrice allAmenities = some (Value.fin
      ((formulaTotal allAmenities 1000 1 1 1 0 : ℤ) : ℚ)) ∧
    formulaTotal allAmenities 1000 1 1 1 0 = 950000 :=
  ⟨by decide!, by decide!, by decide!, by decide!, by decide!,
    preNoisePrice_eq_formulaTotal allAmenities 1000 1 1 1 0
      (by decide!) (by decide!) (by decide!) (by decide!) (by decide!)
      (by decide) (by decide) (by decide) (by decide) (by decide),
    by decide⟩

/-! ## Bounds on one rounding -/

theorem not_posInf_le_fin (b : ℚ) : ¬ (Value.posInf ≤ Value.fin b) := by
  show ¬ (Value.leb Value.posInf (Value.fin b) = true)
  simp [Value.leb]

/-- The error of one rounding of a number below `2^(k+1)` in magnitude is at most
`2^(k-53)`. -/
theorem fl_sub_le_of_lt (x : ℚ) (k : ℤ) (hk : -1022 ≤ k) (h : |x| < (2 : ℚ) ^ (k + 1)) :
    |fl x - x| ≤ (2 : ℚ) ^ (k - 53) := by
  by_cases hx : x = 0
  · subst hx
    rw [fl_zero, sub_zero, abs_zero]
    positivity
  · have h1 := (exponent_spec x hx).1
    have h2 : (2 : ℚ) ^ exponent x < (2 : ℚ) ^ (k + 1) := lt_of_le_of_lt h1 h
    have h3 := (zpow_lt_zpow_iff_right₀ (by norm_num : (1 : ℚ) < 2)).mp h2
    have h4 : max (exponent x) (-1022) - 52 ≤ k - 52 := by
      have : max (exponent x) (-1022) ≤ k := max_le (by omega) hk
      omega
    have h5 : ulp x ≤ (2 : ℚ) ^ (k - 52) := by
      rw [ulp_eq]
      exact zpow_le_zpow_right₀ (by norm_num) h4
    have h6 : (2 : ℚ) ^ (k - 52) = 2 * (2 : ℚ) ^ (k - 53) := by
      rw [show k - 52 = 1 + (k - 53) by ring, zpow_add₀ (by norm_num : (2 : ℚ) ≠ 0), zpow_one]
    have h7 := fl_sub_le x
    linarith

/-- The rounding of a number between two numbers that round to finite values is finite
and lies between those values. -/
theorem round64_fin_between {lo hi x clo chi : ℚ} (h1 : lo ≤ x) (h2 : x ≤ hi)
    (e1 : round64 lo = Value.fin clo) (e2 : round64 hi = Value.fin chi) :
    ∃ q, round64 x = Value.fin q ∧ clo ≤ q ∧ q ≤ chi ∧ q = fl x := by
  have m1 := round64_mono h1
  have m2 := round64_mono h2
  rw [e1] at m1
  rw [e2] at m2
  rcases fin_le_cases m1 with ⟨q, hq, hle⟩ | hinf
  · rw [hq] at m2
    exact ⟨q, hq, hle, (fin_le_fin_iff _ _).mp m2, (round64_eq_fin_imp hq).1⟩
  · rw [hinf] at m2
    exact absurd m2 (not_posInf_le_fin _)

/-- A number `m * 2^k` with `|m| ≤ 2^53` and `-1074 ≤ k ≤ 0` is a binary64 number. -/
theorem round64_dyadic (m k : ℤ) (hm : |m| ≤ 2 ^ 53) (hk : -1074 ≤ k) (hk0 : k ≤ 0) :
    round64 ((m : ℚ) * (2 : ℚ) ^ k) = Value.fin ((m : ℚ) * (2 : ℚ) ^ k) := by
  have hb : |(m : ℚ) * (2 : ℚ) ^ k| ≤ (2 : ℚ) ^ 1000 := by
    rw [abs_mul, abs_of_pos (two_zpow_pos k)]
    have h1 : |(m : ℚ)| ≤ (2 : ℚ) ^ 53 := by
      have : ((|m| : ℤ) : ℚ) ≤ ((2 ^ 53 : ℤ) : ℚ) := by exact_mod_cast hm
      rw [Int.cast_abs] at this
      calc |(m : ℚ)| ≤ ((2 ^ 53 : ℤ) : ℚ) := this
        _ = (2 : ℚ) ^ 53 := by norm_num
    have h2 : (2 : ℚ) ^ k ≤ 1 := by
      have := zpow_le_zpow_right₀ (by norm_num : (1 : ℚ) ≤ 2) hk0
      rwa [zpow_zero] at this
    calc |(m : ℚ)| * (2 : ℚ) ^ k ≤ (2 : ℚ) ^ 53 * 1 :=
          mul_le_mul h1 h2 (le_of_lt (two_zpow_pos k)) (by positivity)
      _ = (2 : ℚ) ^ 53 := mul_one _
      _ ≤ (2 : ℚ) ^ 1000 := two_pow_53_le
  rw [round64_eq_fin_of_abs_le _ hb, fl_eq_self m k hm hk]

/-! ## The random variation -/

theorem lit_nine_tenths :
    lit (9 / 10) = some (Value.fin (8106479329266893 / 9007199254740992)) := by decide!

theorem lit_two_tenths :
    lit (2 / 10) = some (Value.fin (3602879701896397 / 18014398509481984)) := by decide!

theorem round64_variation_low :
    round64 (8106479329266893 / 9007199254740992 + 0)
      = Value.fin (8106479329266893 / 9007199254740992) := by decide!

theorem round64_variation_high :
    round64 (8106479329266893 / 9007199254740992 + 3602879701896397 / 18014398509481984)
      = Value.fin (2476979795053773 / 2251799813685248) := by decide!

theorem round64_two_tenths :
    round64 (3602879701896397 / 18014398509481984)
      = Value.fin (3602879701896397 / 18014398509481984) := by decide!

/-- The variation of a draw `0 ≤ r < 1` is a Number between the binary64 numbers `0.9` and
`1.1`, within `2^-52` of `0.9 + 0.2 * r`. -/
theorem variation_bounds (r : ℚ) (hr0 : 0 ≤ r) (hr1 : r < 1) :
    ∃ v, variation r = some (Value.fin v) ∧ 8106479329266893 / 9007199254740992 ≤ v ∧
      v ≤ 2476979795053773 / 2251799813685248 ∧
      |v - (9 / 10 + 2 / 10 * r)| ≤ 1 / 4503599627370496 := by
  unfold variation
  rw [lit_nine_tenths, lit_two_tenths, numMul_fin]
  have hx0 : (0 : ℚ) ≤ r * (3602879701896397 / 18014398509481984) := by positivity
  have hx1 : r * (3602879701896397 / 18014398509481984)
      ≤ 3602879701896397 / 18014398509481984 := by nlinarith
  obtain ⟨w, hw, hw0, hw1, hwfl⟩ := round64_fin_between hx0 hx1 round64_zero round64_two_tenths
  rw [hw, numAdd_fin]
  have hy0 : (8106479329266893 / 9007199254740992 : ℚ) + 0
      ≤ 8106479329266893 / 9007199254740992 + w := by linarith
  have hy1 : (8106479329266893 / 9007199254740992 : ℚ) + w
      ≤ 8106479329266893 / 9007199254740992 + 3602879701896397 / 18014398509481984 := by
    linarith
  obtain ⟨v, hv, hv0, hv1, hvfl⟩ :=
    round64_fin_between hy0 hy1 round64_variation_low round64_variation_high
  refine ⟨v, by rw [hv], hv0, hv1, ?_⟩
  have ew := fl_sub_le_of_lt (r * (3602879701896397 / 18014398509481984)) (-3) (by norm_num)
    (by rw [abs_of_nonneg hx0]; norm_num; linarith)
  have ev := fl_sub_le_of_lt (8106479329266893 / 9007199254740992 + w) 0 (by norm_num)
    (by rw [abs_of_nonneg (by linarith)]; norm_num; linarith)
  rw [← hwfl] at ew
  rw [← hvfl] at ev
  norm_num at ew ev
  rw [abs_le] at ew ev ⊢
  constructor <;> linarith

/-! ## The price after the variation -/

theorem five_dvd_formulaTotal (data : FormData) (a b c s p : Int) :
    ∃ m : Int, formulaTotal data a b c s p = 5 * m := by
  have h : a * (500 + 150 * yesNo data.prefarea + 100 * yesNo data.mainroad
      + 50 * yesNo data.basement + 25 * yesNo data.hotwaterheating
      + 75 * yesNo data.airconditioning + 50 * yesNo data.guestroom)
      = 5 * (a * (100 + 30 * yesNo data.prefarea + 20 * yesNo data.mainroad
      + 10 * yesNo data.basement + 5 * yesNo data.hotwaterheating
      + 15 * yesNo data.airconditioning + 10 * yesNo data.guestroom)) := by ring
  have hmod : formulaTotal data a b c s p % 5 = 0 := by
    unfold formulaTotal furnishingBonus
    rw [h]
    split_ifs <;> omega
  exact Int.dvd_of_emod_eq_zero hmod

theorem formulaTotal_bounds (data : FormData) (a b c s p : Int)
    (ha : 1000 ≤ a) (ha' : a ≤ 20000) (hb : 1 ≤ b) (hb' : b ≤ 1000000000)
    (hc : 1 ≤ c) (hc' : c ≤ 1000000000) (hs' : s ≤ 1000000000)
    (hp : 0 ≤ p) (hp' : p ≤ 1000000000) :
    500000 ≤ formulaTotal data a b c s p ∧
      formulaTotal data a b c s p ≤ 550000020000000 := by
  obtain ⟨hq1, hq2⟩ := pricePerSqFt_bounds data
  rw [pricePerSqFt_eq] at hq1 hq2
  have h1 : (1000 : Int) * 500 ≤ a * (500 + 150 * yesNo data.prefarea
      + 100 * yesNo data.mainroad + 50 * yesNo data.basement
      + 25 * yesNo data.hotwaterheating + 75 * yesNo data.airconditioning
      + 50 * yesNo data.guestroom) :=
    Int.mul_le_mul ha hq1 (by decide) (by omega)
  have h1' : a * (500 + 150 * yesNo data.prefarea
      + 100 * yesNo data.mainroad + 50 * yesNo data.basement
      + 25 * yesNo data.hotwaterheating + 75 * yesNo data.airconditioning
      + 50 * yesNo data.guestroom) ≤ (20000 : Int) * 950 :=
    Int.mul_le_mul ha' hq2 (by omega) (by decide)
  obtain ⟨h2, h2'⟩ := furnishingBonus_bounds data.furnishingstatus
  unfold formulaTotal
  split_ifs <;> constructor <;> omega

/-- The function `Math.round` stays within one of the rounding of a number less than one
away. -/
theorem floor_half_near {p e : ℚ} (h : |p - e| < 1) :
    |((⌊p + 1 / 2⌋ : ℤ) : ℚ) - ((round e : ℤ) : ℚ)| ≤ 1 := by
  rw [round_eq]
  rw [abs_lt] at h
  have a1 : ((⌊p + 1 / 2⌋ : ℤ) : ℚ) ≤ p + 1 / 2 := Int.floor_le _
  have a2 : p + 1 / 2 < ((⌊p + 1 / 2⌋ : ℤ) : ℚ) + 1 := Int.lt_floor_add_one _
  have b1 : ((⌊e + 1 / 2⌋ : ℤ) : ℚ) ≤ e + 1 / 2 := Int.floor_le _
  have b2 : e + 1 / 2 < ((⌊e + 1 / 2⌋ : ℤ) : ℚ) + 1 := Int.lt_floor_add_one _
  have c1 : ((⌊p + 1 / 2⌋ : ℤ) : ℚ) < ((⌊e + 1 / 2⌋ + 2 : ℤ) : ℚ) := by
    push_cast; linarith
  have c2 : ((⌊e + 1 / 2⌋ : ℤ) : ℚ) < ((⌊p + 1 / 2⌋ + 2 : ℤ) : ℚ) := by
    push_cast; linarith
  have d1 : ⌊p + 1 / 2⌋ < ⌊e + 1 / 2⌋ + 2 := by exact_mod_cast c1
  have d2 : ⌊e + 1 / 2⌋ < ⌊p + 1 / 2⌋ + 2 := by exact_mod_cast c2
  rw [abs_le]
  constructor
  · have : ((⌊e + 1 / 2⌋ : ℤ) : ℚ) ≤ ((⌊p + 1 / 2⌋ + 1 : ℤ) : ℚ) := by
      exact_mod_cast (by omega : ⌊e + 1 / 2⌋ ≤ ⌊p + 1 / 2⌋ + 1)
    push_cast at this
    linarith
  · have : ((⌊p + 1 / 2⌋ : ℤ) : ℚ) ≤ ((⌊e + 1 / 2⌋ + 1 : ℤ) : ℚ) := by
      exact_mod_cast (by omega : ⌊p + 1 / 2⌋ ≤ ⌊e + 1 / 2⌋ + 1)
    push_cast at this
    linarith

/-- The product of a total `5 * m` with a factor between the binary64 numbers `0.9` and
`1.1`, rounded to binary64 and then by `Math.round`. -/
theorem price_of_total (m : ℤ) (v : ℚ) (hm0 : 100000 ≤ m) (hm1 : m ≤ 110000004000000)
    (hv0 : 8106479329266893 / 9007199254740992 ≤ v)
    (hv1 : v ≤ 2476979795053773 / 2251799813685248) :
    ∃ price : ℤ,
      mathRound (numMul (some (Value.fin ((5 * m : ℤ) : ℚ))) (some (Value.fin v)))
        = some (Value.fin price) ∧
      9 * m ≤ 2 * price ∧ 2 * price ≤ 11 * m + 1 ∧
      |(price : ℚ) - (⌊((5 * m : ℤ) : ℚ) * v + 1 / 2⌋ : ℤ)| ≤ 1 ∧
      ∃ p : ℚ, price = ⌊p + 1 / 2⌋ ∧ |p - ((5 * m : ℤ) : ℚ) * v| ≤ 1 / 16 := by
  have hmq0 : (100000 : ℚ) ≤ m := by exact_mod_cast hm0
  have hmq1 : (m : ℚ) ≤ 110000004000000 := by exact_mod_cast hm1
  have elo := round64_dyadic (9 * m) (-1) (by rw [abs_le]; constructor <;> norm_num <;> omega)
    (by norm_num) (by norm_num)
  have ehi := round64_dyadic (22 * m + 1) (-2)
    (by rw [abs_le]; constructor <;> norm_num <;> omega) (by norm_num) (by norm_num)
  have hlo : ((9 * m : ℤ) : ℚ) * (2 : ℚ) ^ (-1 : ℤ) ≤ ((5 * m : ℤ) : ℚ) * v := by
    push_cast
    norm_num
    nlinarith
  have hhi : ((5 * m : ℤ) : ℚ) * v ≤ ((22 * m + 1 : ℤ) : ℚ) * (2 : ℚ) ^ (-2 : ℤ) := by
    push_cast
    norm_num
    nlinarith
  obtain ⟨p, hp, hp0, hp1, hpfl⟩ := round64_fin_between hlo hhi elo ehi
  have hpos : (0 : ℚ) ≤ ((5 * m : ℤ) : ℚ) * v := by
    push_cast
    have : (0 : ℚ) ≤ v := by linarith
    positivity
  have err := fl_sub_le_of_lt (((5 * m : ℤ) : ℚ) * v) 49 (by norm_num)
    (by rw [abs_of_nonneg hpos]; push_cast; norm_num; nlinarith)
  rw [← hpfl] at err
  norm_num at err hp0 hp1
  have a1 : ((⌊p + 1 / 2⌋ : ℤ) : ℚ) ≤ p + 1 / 2 := Int.floor_le _
  have a2 : p + 1 / 2 < ((⌊p + 1 / 2⌋ : ℤ) : ℚ) + 1 := Int.lt_floor_add_one _
  refine ⟨⌊p + 1 / 2⌋, ?_, ?_, ?_, ?_, p, rfl, ?_⟩
  · rw [numMul_fin, hp]
    rfl
  · have : ((9 * m - 1 : ℤ) : ℚ) < ((2 * ⌊p + 1 / 2⌋ : ℤ) : ℚ) := by
      push_cast; linarith
    have := Int.cast_lt.mp this
    omega
  · have : ((4 * ⌊p + 1 / 2⌋ : ℤ) : ℚ) ≤ ((22 * m + 3 : ℤ) : ℚ) := by
      push_cast; linarith
    have := Int.cast_le.mp this
    omega
  · have h := floor_half_near (p := p) (e := ((5 * m : ℤ) : ℚ) * v)
      (lt_of_le_of_lt (by simpa using err) (by norm_num))
    rwa [round_eq] at h
  · simpa using err

theorem allAmenities_valid : ValidHouseAttributes allAmenities 1000 1 1 1 0 where
  area_parsed := by decide!
  bedrooms_parsed := by decide!
  bathrooms_parsed := by decide!
  stories_parsed := by decide!
  parking_parsed := by decide!
  area_lower := by decide
  area_upper := by decide
  bedrooms_pos := by decide
  bathrooms_pos := by decide
  stories_pos := by decide
  parking_nonneg := by decide
  mainroad_yes_no := Or.inl rfl
  guestroom_yes_no := Or.inl rfl
  basement_yes_no := Or.inl rfl
  hotwaterheating_yes_no := Or.inl rfl
  airconditioning_yes_no := Or.inl rfl
  prefarea_yes_no := Or.inl rfl
  furnishing_enum := Or.inr (Or.inr rfl)

/-- The record with area `1001`, hot water heating and nothing else is valid. -/
theorem hotWaterRecord_valid :
    ValidHouseAttributes (plainRecord "1001" "1" "yes" "unfurnished") 1001 1 1 1 0 where
  area_parsed := by decide!
  bedrooms_parsed := by decide!
  bathrooms_parsed := by decide!
  stories_parsed := by decide!
  parking_parsed := by decide!
  area_lower := by decide
  area_upper := by decide
  bedrooms_pos := by decide
  bathrooms_pos := by decide
  stories_pos := by decide
  parking_nonneg := by decide
  mainroad_yes_no := Or.inr rfl
  guestroom_yes_no := Or.inr rfl
  basement_yes_no := Or.inr rfl
  hotwaterheating_yes_no := Or.inl rfl
  airconditioning_yes_no := Or.inr rfl
  prefarea_yes_no := Or.inr rfl
  furnishing_enum := Or.inr (Or.inr rfl)

/-- The record with area `1001` and nothing else is valid. -/
theorem bareRecord_valid :
    ValidHouseAttributes (plainRecord "1001" "1" "no" "unfurnished") 1001 1 1 1 0 where
  area_parsed := by decide!
  bedrooms_parsed := by decide!
  bathrooms_parsed := by decide!
  stories_parsed := by decide!
  parking_parsed := by decide!
  area_lower := by decide
  area_upper := by decide
  bedrooms_pos := by decide
  bathrooms_pos := by decide
  stories_pos := by decide
  parking_nonneg := by decide
  mainroad_yes_no := Or.inr rfl
  guestroom_yes_no := Or.inr rfl
  basement_yes_no := Or.inr rfl
  hotwaterheating_yes_no := Or.inr rfl
  airconditioning_yes_no := Or.inr rfl
  prefarea_yes_no := Or.inr rfl
  furnishing_enum := Or.inr (Or.inr rfl)

/-- C1 (the claim fails). For the valid record with area `1001` and hot water heating
(total `525525`) and the draw `r = 1 - 2^-52`, `calculateBasePrice` returns `578078`,
above `1.1 * 525525 = 578077.5`; for the valid record with area `1001` and no amenity
(total `500500`) and the draw `r = 0.625` it returns `513012`, not
`round (500500 * (0.9 + 0.2 * 0.625)) = 513013`. -/
theorem calculateBasePrice_leaves_band :
    (ValidHouseAttributes (plainRecord "1001" "1" "yes" "unfurnished") 1001 1 1 1 0 ∧
      (0 : ℚ) ≤ 4503599627370495 / 4503599627370496 ∧
      (4503599627370495 / 4503599627370496 : ℚ) < 1 ∧
      preNoisePrice (plainRecord "1001" "1" "yes" "unfurnished")
        = some (Value.fin 525525) ∧
      calculateBasePrice (plainRecord "1001" "1" "yes" "unfurnished")
        (4503599627370495 / 4503599627370496) = some (Value.fin 578078) ∧
      (11 / 10 : ℚ) * 525525 < 578078) ∧
    (ValidHouseAttributes (plainRecord "1001" "1" "no" "unfurnished") 1001 1 1 1 0 ∧
      preNoisePrice (plainRecord "1001" "1" "no" "unfurnished")
        = some (Value.fin 500500) ∧
      calculateBasePrice (plainRecord "1001" "1" "no" "unfurnished") (5 / 8)
        = some (Value.fin 513012) ∧
      round ((500500 : ℚ) * (9 / 10 + 2 / 10 * (5 / 8))) = 513013) := by
  refine ⟨⟨hotWaterRecord_valid, by norm_num, by norm_num, by decide!, by decide!,
    by norm_num⟩, bareRecord_valid, by decide!, by decide!, ?_⟩
  rw [round_eq, Int.floor_eq_iff]
  norm_num

/-- C1 (amended). For a valid record whose bedrooms, bathrooms, stories and parking are at
most `10^9`, and a draw `0 ≤ r < 1`, `calculateBasePrice` returns a positive integer
`price` that is within one of `round (T * (0.9 + 0.2 * r))` for the total `T` before the
variation (the binary64 operations may round the other way), with
`0.9 * T ≤ price ≤ 1.1 * T + 1/2`, and `price ≤ 1.1 * T` when `T` is a multiple of 10. -/
theorem calculateBasePrice_near_band (data : FormData)
    (area bedrooms bathrooms stories parking : Int) (r : ℚ)
    (hv : ValidHouseAttributes data area bedrooms bathrooms stories parking)
    (hbedrooms : bedrooms ≤ 10 ^ 9) (hbathrooms : bathrooms ≤ 10 ^ 9)
    (hstories : stories ≤ 10 ^ 9) (hparking : parking ≤ 10 ^ 9)
    (hr0 : 0 ≤ r) (hr1 : r < 1) :
    ∃ T price : Int, T = formulaTotal data area bedrooms bathrooms stories parking ∧
      preNoisePrice data = some (Value.fin T) ∧
      calculateBasePrice data r = some (Value.fin price) ∧
      |(price : ℚ) - round ((T : ℚ) * (9 / 10 + 2 / 10 * r))| ≤ 1 ∧ 0 < price ∧
      (9 / 10 : ℚ) * T ≤ price ∧ (price : ℚ) ≤ 11 / 10 * T + 1 / 2 ∧
      (10 ∣ T → (price : ℚ) ≤ 11 / 10 * T) := by
  have e9 : (10 : ℤ) ^ 9 = 1000000000 := by norm_num
  rw [e9] at hbedrooms hbathrooms hstories hparking
  have hT := preNoisePrice_exact data area bedrooms bathrooms stories parking
    hv.area_parsed hv.bedrooms_parsed hv.bathrooms_parsed hv.stories_parsed hv.parking_parsed
    ⟨by have := hv.area_lower; omega, by have := hv.area_upper; omega⟩
    ⟨by have := hv.bedrooms_pos; omega, by omega⟩
    ⟨by have := hv.bathrooms_pos; omega, by omega⟩
    ⟨by have := hv.stories_pos; omega, by omega⟩
    ⟨by have := hv.parking_nonneg; omega, by omega⟩
  obtain ⟨m, hm⟩ := five_dvd_formulaTotal data area bedrooms bathrooms stories parking
  obtain ⟨hlow, hupp⟩ := formulaTotal_bounds data area bedrooms bathrooms stories parking
    hv.area_lower hv.area_upper hv.bedrooms_pos hbedrooms hv.bathrooms_pos hbathrooms
    hstories hv.parking_nonneg hparking
  obtain ⟨v, hvar, hv0, hv1, hverr⟩ := variation_bounds r hr0 hr1
  rw [hm] at hT hlow hupp
  obtain ⟨price, hprice, hp0, hp1, _, p, hpfloor, hperr⟩ :=
    price_of_total m v (by omega) (by omega) hv0 hv1
  have hmq0 : (100000 : ℚ) ≤ m := by exact_mod_cast (by omega : (100000 : ℤ) ≤ m)
  have hmq1 : (m : ℚ) ≤ 110000004000000 := by
    exact_mod_cast (by omega : m ≤ 110000004000000)
  have hp0q : ((9 * m : ℤ) : ℚ) ≤ ((2 * price : ℤ) : ℚ) := by exact_mod_cast hp0
  have hp1q : ((2 * price : ℤ) : ℚ) ≤ ((11 * m + 1 : ℤ) : ℚ) := by exact_mod_cast hp1
  push_cast at hp0q hp1q
  refine ⟨5 * m, price, hm.symm, hT, ?_, ?_, by omega, ?_, ?_, ?_⟩
  · unfold calculateBasePrice
    rw [hT, hvar, hprice]
  · rw [hpfloor]
    apply floor_half_near
    rw [abs_le] at hperr hverr
    have h1 : ((5 * m : ℤ) : ℚ) * v - ((5 * m : ℤ) : ℚ) * (9 / 10 + 2 / 10 * r)
        = 5 * (m : ℚ) * (v - (9 / 10 + 2 / 10 * r)) := by push_cast; ring
    have h2 : 5 * (m : ℚ) * (v - (9 / 10 + 2 / 10 * r)) ≤ 1 / 4 := by nlinarith
    have h3 : -(1 / 4) ≤ 5 * (m : ℚ) * (v - (9 / 10 + 2 / 10 * r)) := by nlinarith
    rw [abs_lt]
    constructor <;> linarith
  · push_cast
    linarith
  · push_cast
    linarith
  · intro hdvd
    have hpar : 2 * price ≤ 11 * m := by omega
    have : ((2 * price : ℤ) : ℚ) ≤ ((11 * m : ℤ) : ℚ) := by exact_mod_cast hpar
    push_cast at this ⊢
    linarith

theorem calculateBasePrice_near_band_witness :
    ValidHouseAttributes allAmenities 1000 1 1 1 0 ∧
    (1 : ℤ) ≤ 10 ^ 9 ∧ (1 : ℤ) ≤ 10 ^ 9 ∧ (1 : ℤ) ≤ 10 ^ 9 ∧ (0 : ℤ) ≤ 10 ^ 9 ∧
    (0 : ℚ) ≤ 1 / 2 ∧ (1 / 2 : ℚ) < 1 ∧
    ∃ T price : Int, T = formulaTotal allAmenities 1000 1 1 1 0 ∧
      preNoisePrice allAmenities = some (Value.fin T) ∧
      calculateBasePrice allAmenities (1 / 2) = some (Value.fin price) ∧
      |(price : ℚ) - round ((T : ℚ) * (9 / 10 + 2 / 10 * (1 / 2)))| ≤ 1 ∧ 0 < price ∧
      (9 / 10 : ℚ) * T ≤ price ∧ (price : ℚ) ≤ 11 / 10 * T + 1 / 2 ∧
      (10 ∣ T → (price : ℚ) ≤ 11 / 10 * T) :=
  ⟨allAmenities_valid, by decide, by decide, by decide, by decide, by norm_num, by norm_num,
    calculateBasePrice_near_band allAmenities 1000 1 1 1 0 (1 / 2) allAmenities_valid
      (by decide) (by decide) (by decide) (by decide) (by norm_num) (by norm_num)⟩

/-! ## The confidence -/

theorem lit_eighty_five :
    lit (85 / 100) = some (Value.fin (7656119366529843 / 9007199254740992)) := by decide!

theorem lit_ninety_five :
    lit (95 / 100) = some (Value.fin (4278419646001971 / 4503599627370496)) := by decide!

theorem lit_one_tenth :
    lit (1 / 10) = some (Value.fin (3602879701896397 / 36028797018963968)) := by decide!

theorem round64_one_tenth :
    round64 (3602879701896397 / 36028797018963968)
      = Value.fin (3602879701896397 / 36028797018963968) := by decide!

theorem round64_confidence_low :
    round64 (7656119366529843 / 9007199254740992 + 0)
      = Value.fin (7656119366529843 / 9007199254740992) := by decide!

theorem round64_confidence_high :
    round64 (7656119366529843 / 9007199254740992 + 3602879701896397 / 36028797018963968)
      = Value.fin (4278419646001971 / 4503599627370496) := by decide!

/-- C8 (the claim fails). At the draw `r = 0`, which `Math.random()` may return, the
confidence is the Number `0.85` itself: the test `0.85 < confidence` is false, and its
value is not above `85/100`.  At the draw `r = 1 - 2^-52` the confidence is the Number
`0.95` itself: the test `confidence < 0.95` is false. -/
theorem confidence_at_zero_not_strict :
    (simulatePrediction allAmenities 0 0 0).confidence = lit (85 / 100) ∧
    numLt (lit (85 / 100)) (simulatePrediction allAmenities 0 0 0).confidence = false ∧
    (simulatePrediction allAmenities 0 0 0).confidence
      = some (Value.fin (7656119366529843 / 9007199254740992)) ∧
    ¬ ((85 / 100 : ℚ) < 7656119366529843 / 9007199254740992) ∧
    (simulatePrediction allAmenities 0 0
      (4503599627370495 / 4503599627370496)).confidence = lit (95 / 100) ∧
    numLt (simulatePrediction allAmenities 0 0
      (4503599627370495 / 4503599627370496)).confidence (lit (95 / 100)) = false := by
  refine ⟨by decide!, by decide!, by decide!, by norm_num, by decide!, by decide!⟩

/-- C8 (amended). For every draw `0 ≤ r < 1` the confidence returned by
`simulatePrediction` is a Number between the Numbers `0.85` and `0.95`, both included
(`0.85 <= confidence` and `confidence <= 0.95` hold in the code), and its value is within
`2^-53` of `0.85 + 0.1 * r`. -/
theorem confidence_in_closed_range (data : FormData) (rDelay rPrice r : ℚ)
    (hr0 : 0 ≤ r) (hr1 : r < 1) :
    ∃ c : ℚ, (simulatePrediction data rDelay rPrice r).confidence = some (Value.fin c) ∧
      numLe (lit (85 / 100)) (simulatePrediction data rDelay rPrice r).confidence = true ∧
      numLe (simulatePrediction data rDelay rPrice r).confidence (lit (95 / 100)) = true ∧
      7656119366529843 / 9007199254740992 ≤ c ∧
      c ≤ 4278419646001971 / 4503599627370496 ∧
      |c - (85 / 100 + r * (1 / 10))| ≤ 1 / 9007199254740992 := by
  show ∃ c : ℚ,
    numAdd (lit (85 / 100)) (numMul (some (Value.fin r)) (lit (1 / 10))) = some (Value.fin c) ∧
    numLe (lit (85 / 100))
      (numAdd (lit (85 / 100)) (numMul (some (Value.fin r)) (lit (1 / 10)))) = true ∧
    numLe (numAdd (lit (85 / 100)) (numMul (some (Value.fin r)) (lit (1 / 10))))
      (lit (95 / 100)) = true ∧ _
  rw [lit_eighty_five, lit_ninety_five, lit_one_tenth, numMul_fin]
  have hx0 : (0 : ℚ) ≤ r * (3602879701896397 / 36028797018963968) := by positivity
  have hx1 : r * (3602879701896397 / 36028797018963968)
      ≤ 3602879701896397 / 36028797018963968 := by nlinarith
  obtain ⟨w, hw, hw0, hw1, hwfl⟩ := round64_fin_between hx0 hx1 round64_zero round64_one_tenth
  rw [hw, numAdd_fin]
  have hy0 : (7656119366529843 / 9007199254740992 : ℚ) + 0
      ≤ 7656119366529843 / 9007199254740992 + w := by linarith
  have hy1 : (7656119366529843 / 9007199254740992 : ℚ) + w
      ≤ 7656119366529843 / 9007199254740992 + 3602879701896397 / 36028797018963968 := by
    linarith
  obtain ⟨c, hc, hc0, hc1, hcfl⟩ :=
    round64_fin_between hy0 hy1 round64_confidence_low round64_confidence_high
  rw [hc]
  refine ⟨c, rfl, ?_, ?_, hc0, hc1, ?_⟩
  · simp only [numLe, Value.leb, decide_eq_true_eq]
    exact hc0
  · simp only [numLe, Value.leb, decide_eq_true_eq]
    exact hc1
  · have ew := fl_sub_le_of_lt (r * (3602879701896397 / 36028797018963968)) (-4)
      (by norm_num) (by rw [abs_of_nonneg hx0]; norm_num; linarith)
    have ec := fl_sub_le_of_lt (7656119366529843 / 9007199254740992 + w) (-1) (by norm_num)
      (by rw [abs_of_nonneg (by linarith)]; norm_num; linarith)
    rw [← hwfl] at ew
    rw [← hcfl] at ec
    norm_num at ew ec
    rw [abs_le] at ew ec ⊢
    constructor <;> linarith

theorem confidence_in_closed_range_witness :
    (0 : ℚ) ≤ 1 / 2 ∧ (1 / 2 : ℚ) < 1 ∧
    ∃ c : ℚ, (simulatePrediction allAmenities 0 0 (1 / 2)).confidence = some (Value.fin c) ∧
      numLe (lit (85 / 100)) (simulatePrediction allAmenities 0 0 (1 / 2)).confidence = true ∧
      numLe (simulatePrediction allAmenities 0 0 (1 / 2)).confidence (lit (95 / 100)) = true ∧
      7656119366529843 / 9007199254740992 ≤ c ∧
      c ≤ 4278419646001971 / 4503599627370496 ∧
      |c - (85 / 100 + (1 / 2) * (1 / 10))| ≤ 1 / 9007199254740992 :=
  ⟨by norm_num, by norm_num,
    confidence_in_closed_range allAmenities 0 0 (1 / 2) (by norm_num) (by norm_num)⟩

/-! ## The price per square foot -/

/-- C9 (what the code does at the failing input). With the six amenities all `yes` the
price per square foot that multiplies the area is 950, outside the range 500 to 800 that
the comment of `calculateBasePrice` announces. -/
theorem pricePerSqFt_allAmenities :
    pricePerSqFt allAmenities = 950 ∧ ¬ (pricePerSqFt allAmenities ≤ 800) := by
  decide

/-! ## The factor list -/

theorem ofInt_four : ofInt 4 = some (Value.fin 4) := by decide!

/-- The test `bedrooms >= 4` of `getMainFactors` is the rule of the factor list. -/
theorem numGe_four_eq (data : FormData) :
    numGe (parseIntProp data.bedrooms) (ofInt 4) = bedroomsAtLeastFour data := by
  unfold bedroomsAtLeastFour
  rw [ofInt_four]
  rcases parseIntProp data.bedrooms with _ | (_ | b | _) <;> rfl

/-- C7. The list returned by `getMainFactors` is the first three (or all, when fewer) of the
labels whose condition holds, taken in the fixed order of the five rules; it has at most
three entries and is a sublist of the priority list, so the labels keep the priority
order.  With every condition true the list is the first three labels; four bedrooms give
`Spacious layout`, three do not. -/
theorem getMainFactors_eq_take_keptFactors (data : FormData) :
    getMainFactors data = (keptFactors data).take 3 ∧
    (getMainFactors data).length ≤ 3 ∧
    List.Sublist (getMainFactors data) factorPriority ∧
    getMainFactors { allAmenities with bedrooms := some "4", furnishingstatus := some "furnished" }
      = ["Premium location", "Main road access", "Spacious layout"] ∧
    getMainFactors { allAmenities with furnishingstatus := some "furnished" }
      = ["Premium location", "Main road access", "Basement included"] ∧
    getMainFactors (plainRecord "1500" "4" "no" "furnished")
      = ["Spacious layout", "Fully furnished"] ∧
    getMainFactors (plainRecord "1500" "3" "no" "furnished") = ["Fully furnished"] ∧
    getMainFactors (plainRecord "1500" "3" "no" "unfurnished") = [] ∧
    keptFactors { allAmenities with bedrooms := some "4", furnishingstatus := some "furnished" }
      = factorPriority := by
  have key : getMainFactors data = (keptFactors data).take 3 ∧
      (getMainFactors data).length ≤ 3 ∧
      List.Sublist (getMainFactors data) factorPriority := by
    unfold getMainFactors keptFactors factorRules factorPriority
    rw [numGe_four_eq]
    by_cases h1 : data.prefarea = some "yes" <;>
    by_cases h2 : data.mainroad = some "yes" <;>
    cases h3 : bedroomsAtLeastFour data <;>
    by_cases h4 : data.basement = some "yes" <;>
    by_cases h5 : data.furnishingstatus = some "furnished" <;>
    simp only [h1, h2, h4, h5, if_true, if_false, decide_True, decide_False,
      Bool.false_eq_true] <;>
    decide
  exact ⟨key.1, key.2.1, key.2.2, by decide!, by decide!, by decide!, by decide!, by decide!,
    by decide!⟩

/-! ## Validation of the form -/

theorem foldl_isValid (p : String → Bool) (l : List String) (init : Bool) :
    l.foldl (fun isValid fieldName => if p fieldName then isValid else false) init
      = (init && l.all p) := by
  induction l generalizing init with
  | nil => simp
  | cons x xs ih =>
    rw [List.foldl_cons, ih]
    cases init <;> cases h : p x <;> simp [h]

theorem parseInt_empty : parseInt "" = none := by decide

/-- What `validateForm` returns, in closed form: every required field is filled, and the
text of the area, when there is one, is not out of range. -/
theorem validateForm_eq (f : Form) :
    validateForm f = (requiredFields.all (fieldFilled f) &&
      !(areaOutOfRange ((f.control "area").bind parseInt))) := by
  unfold validateForm
  simp only [foldl_isValid, Bool.true_and]
  cases h : f.control "area" with
  | none => simp [areaOutOfRange, numLt, numGt]
  | some v =>
    simp only [Option.bind]
    by_cases hv : v = ""
    · subst hv
      simp [parseInt_empty, areaOutOfRange, numLt, numGt]
    · simp only [hv, ne_eq, not_false_eq_true, if_true]
      cases areaOutOfRange (parseInt v) <;> simp

theorem fieldFilled_eq_not_blank (f : Form) (fieldName : String)
    (h : fieldName ≠ "furnishingstatus") :
    fieldFilled f fieldName = !fieldBlank (f.control fieldName) := by
  unfold fieldFilled fieldBlank
  rw [if_neg h]
  cases f.control fieldName with
  | none => rfl
  | some v => simp

theorem fieldFilled_furnishing (f : Form) :
    fieldFilled f "furnishingstatus" = ((getFormData f).furnishingstatus).isSome := by
  unfold fieldFilled getFormData
  simp only [if_true]
  induction f.radios using List.reverseRecOn with
  | nil => rfl
  | append_singleton xs x ih =>
    cases hx : x.checked <;> simp_all [List.filter_append, List.filter_cons]

/-- The value of a radio button of the group is never blank. -/
theorem furnishingValue_not_blank (status : FurnishingStatus) :
    fieldBlank (some status.value) = false := by
  cases status <;> decide

/-- The selected furnishing status is blank exactly when no radio button is checked. -/
theorem furnishing_blank_iff (f : Form) :
    fieldBlank (getFormData f).furnishingstatus = true ↔
      (getFormData f).furnishingstatus = none := by
  constructor
  · intro h
    cases hfs : (getFormData f).furnishingstatus with
    | none => rfl
    | some v =>
      exfalso
      have hmap : ((f.radios.filter (fun radio => radio.checked)).getLast?).map
          (fun radio => radio.status.value) = some v := hfs
      rw [Option.map_eq_some'] at hmap
      obtain ⟨radio, _, hval⟩ := hmap
      rw [hfs, ← hval, furnishingValue_not_blank] at h
      exact Bool.noConfusion h
  · intro h
    rw [h]
    rfl

theorem validateForm_false_of_unfilled (f : Form) (fieldName : String)
    (hmem : fieldName ∈ requiredFields) (h : fieldFilled f fieldName = false) :
    validateForm f = false := by
  rw [validateForm_eq]
  have : requiredFields.all (fieldFilled f) = false := by
    rw [List.all_eq_false]
    exact ⟨fieldName, hmem, by simp [h]⟩
  rw [this]
  rfl

theorem ofInt_1000 : ofInt 1000 = some (Value.fin 1000) := by decide!

theorem ofInt_20000 : ofInt 20000 = some (Value.fin 20000) := by decide!

theorem areaOutOfRange_some (a : Value) :
    areaOutOfRange (some a) = (a.ltb (Value.fin 1000) || (Value.fin 20000).ltb a) := by
  unfold areaOutOfRange
  rw [ofInt_1000, ofInt_20000]
  rfl

/-- A missing required field makes `fieldFilled` fail. -/
theorem fieldFilled_false_of_blank (f : Form) (fieldName : String)
    (h : fieldBlank (fieldValue f fieldName) = true) : fieldFilled f fieldName = false := by
  by_cases hname : fieldName = "furnishingstatus"
  · subst hname
    have hv : fieldValue f "furnishingstatus" = (getFormData f).furnishingstatus := by
      unfold fieldValue
      rw [if_pos rfl]
    rw [hv, furnishing_blank_iff] at h
    rw [fieldFilled_furnishing, h]
    rfl
  · have hv : fieldValue f fieldName = f.control fieldName := by
      unfold fieldValue
      rw [if_neg hname]
    rw [hv] at h
    rw [fieldFilled_eq_not_blank f fieldName hname, h]
    rfl

/-- C3. The method `validateForm` returns `false` for every form in which one of the twelve
required fields is absent or blank after trimming (for the furnishing status: no value is
selected), and for every form in which the text of the area parses to a Number below 1000
or above 20000, whatever the other fields hold. -/
theorem validateForm_rejects (f : Form)
    (h : (∃ fieldName ∈ requiredFields, fieldBlank (fieldValue f fieldName) = true) ∨
         (∃ a : Value, (f.control "area").bind parseInt = some a ∧
            (a < Value.fin 1000 ∨ Value.fin 20000 < a))) :
    validateForm f = false := by
  rcases h with ⟨fieldName, hmem, hblank⟩ | ⟨a, ha, hrange⟩
  · exact validateForm_false_of_unfilled f fieldName hmem
      (fieldFilled_false_of_blank f fieldName hblank)
  · rw [validateForm_eq, ha, areaOutOfRange_some]
    have : (a.ltb (Value.fin 1000) || (Value.fin 20000).ltb a) = true := by
      rcases hrange with h1 | h1
      · have h1' : a.ltb (Value.fin 1000) = true := h1
        rw [h1']
        rfl
      · have h1' : (Value.fin 20000).ltb a = true := h1
        rw [h1', Bool.or_true]
    rw [this]
    simp

theorem validateForm_rejects_witness :
    ((∃ fieldName ∈ requiredFields,
        fieldBlank (fieldValue noFurnishingForm fieldName) = true) ∨
      (∃ a : Value, (noFurnishingForm.control "area").bind parseInt = some a ∧
        (a < Value.fin 1000 ∨ Value.fin 20000 < a))) ∧
    validateForm noFurnishingForm = false ∧
    ((∃ fieldName ∈ requiredFields, fieldBlank (fieldValue smallAreaForm fieldName) = true) ∨
      (∃ a : Value, (smallAreaForm.control "area").bind parseInt = some a ∧
        (a < Value.fin 1000 ∨ Value.fin 20000 < a))) ∧
    validateForm smallAreaForm = false ∧
    validateForm filledForm = true :=
  ⟨Or.inl ⟨"furnishingstatus", by decide, by decide⟩,
    validateForm_rejects noFurnishingForm (Or.inl ⟨"furnishingstatus", by decide, by decide⟩),
    Or.inr ⟨Value.fin 999, by decide!, Or.inl (by decide!)⟩,
    validateForm_rejects smallAreaForm
      (Or.inr ⟨Value.fin 999, by decide!, Or.inl (by decide!)⟩),
    by decide!⟩

theorem not_ltb_fin {a : Value} {c : ℚ} (h : a.ltb (Value.fin c) = false) :
    Value.fin c ≤ a := by
  show Value.leb (Value.fin c) a = true
  cases a with
  | negInf => simp [Value.ltb] at h
  | fin x =>
    simp only [Value.ltb, decide_eq_false_iff_not, not_lt] at h
    simpa [Value.leb] using h
  | posInf => rfl

theorem not_fin_ltb {a : Value} {c : ℚ} (h : (Value.fin c).ltb a = false) :
    a ≤ Value.fin c := by
  show Value.leb a (Value.fin c) = true
  cases a with
  | negInf => rfl
  | fin x =>
    simp only [Value.ltb, decide_eq_false_iff_not, not_lt] at h
    simpa [Value.leb] using h
  | posInf => simp [Value.ltb] at h

/-- What a successful `validateForm` does guarantee: none of the twelve fields is missing,
and the text of the area, if it parses to a Number at all, parses to one within the
range. -/
theorem validateForm_true_guarantee (f : Form) (h : validateForm f = true) :
    (∀ fieldName ∈ requiredFields, fieldBlank (fieldValue f fieldName) = false) ∧
    (∀ a : Value, (f.control "area").bind parseInt = some a →
      Value.fin 1000 ≤ a ∧ a ≤ Value.fin 20000) := by
  refine ⟨fun fieldName hmem => ?_, fun a ha => ?_⟩
  · cases hb : fieldBlank (fieldValue f fieldName) with
    | false => rfl
    | true =>
      have := validateForm_false_of_unfilled f fieldName hmem
        (fieldFilled_false_of_blank f fieldName hb)
      rw [this] at h
      exact Bool.noConfusion h
  · rw [validateForm_eq, Bool.and_eq_true, ha, areaOutOfRange_some] at h
    have h2 := h.2
    simp only [Bool.not_eq_true', Bool.or_eq_false_iff] at h2
    exact ⟨not_ltb_fin h2.1, not_fin_ltb h2.2⟩

/-- C4 (what the code does at the failing input). In `nonNumericAreaForm` every required
field is filled and the text of the area is `abc`: `parseInt` gives `NaN`, both comparisons
of the range test are false, `validateForm` returns `true`, and `handleFormSubmit` hands
the data to the estimator, whose price is `NaN`. -/
theorem validateForm_accepts_non_numeric_area :
    nonNumericAreaForm.control "area" = some "abc" ∧
    parseInt "abc" = none ∧
    validateForm nonNumericAreaForm = true ∧
    (handleFormSubmit nonNumericAreaForm 0 0 0).isSome = true ∧
    calculateBasePrice (getFormData nonNumericAreaForm) 0 = none := by
  decide!

/-! ## The price formatter -/

theorem ofInt_zero : ofInt 0 = some (Value.fin 0) := by decide!

theorem ofInt_crore : ofInt 10000000 = some (Value.fin 10000000) := by decide!

theorem round64_one : round64 1 = Value.fin 1 := by decide!

theorem round64_hundred : round64 100 = Value.fin 100 := by decide!

theorem numDiv_fin (x y : ℚ) (hy : y ≠ 0) :
    numDiv (some (Value.fin x)) (some (Value.fin y)) = some (round64 (x / y)) := by
  unfold numDiv
  simp only [if_neg hy]

/-- The remainder of a non-negative integer by one crore is exact. -/
theorem numMod_crore (p : ℤ) (hp : 0 ≤ p) :
    numMod (some (Value.fin (p : ℚ))) (some (Value.fin 10000000))
      = some (Value.fin ((p % 10000000 : ℤ) : ℚ)) := by
  unfold numMod
  have hq : (0 : ℚ) ≤ (p : ℚ) / 10000000 := by
    have : (0 : ℚ) ≤ p := by exact_mod_cast hp
    positivity
  have hfloor : ⌊(p : ℚ) / 10000000⌋ = p / 10000000 := by
    have : (p : ℚ) / 10000000 = ((p : ℤ) : ℚ) / ((10000000 : ℕ) : ℚ) := by push_cast; ring
    rw [this, Rat.floor_intCast_div_natCast]
    rfl
  simp only [if_neg (by norm_num : ¬ ((10000000 : ℚ) = 0)), if_pos hq, hfloor]
  congr 2
  have h := Int.emod_def p 10000000
  rw [h]
  push_cast
  ring

/-- The method `formatPrice` on a non-negative integer up to `2^53`, as the tests it makes
on the binary64 quotients. -/
theorem formatPrice_eq (p : ℤ) (h0 : 0 ≤ p) (h1 : p ≤ 9007199254740992) :
    formatPrice p =
      if (Value.fin 1).leb (round64 ((p : ℚ) / 10000000)) = true then
        if (Value.fin 0).ltb (round64 (((p % 10000000 : ℤ) : ℚ) / 100000)) = true then
          "₹" ++ toFixed1 (some (round64 ((p : ℚ) / 10000000))) ++ " Cr"
        else "₹" ++ roundedToString (mathRound (some (round64 ((p : ℚ) / 10000000)))) ++ " Cr"
      else if (Value.fin 1).leb (round64 (((p % 10000000 : ℤ) : ℚ) / 100000)) = true then
        "₹" ++ roundedToString
          (mathRound (some (round64 (((p % 10000000 : ℤ) : ℚ) / 100000)))) ++ " Lakh"
      else "₹" ++ toLocaleStringEnIN p := by
  unfold formatPrice
  simp only []
  rw [ofInt_small p (by omega) h1, ofInt_crore, ofInt_100000, ofInt_one, ofInt_zero,
    numMod_crore p h0, numDiv_fin _ _ (by norm_num), numDiv_fin _ _ (by norm_num)]
  have e : numberToLocaleString (some (Value.fin (p : ℚ))) = toLocaleStringEnIN p := by
    show toLocaleStringEnIN ⌊(p : ℚ)⌋ = toLocaleStringEnIN p
    rw [Int.floor_intCast]
  rw [e]
  rfl

/-- The text of a small integer that `Math.round` returned. -/
theorem roundedToString_int (n : ℤ) (h : n.natAbs ≤ 2 ^ 53) :
    roundedToString (some (Value.fin ((n : ℤ) : ℚ))) = toString n := by
  show integerToString ⌊(n : ℚ)⌋ = toString n
  rw [Int.floor_intCast]
  unfold integerToString
  rw [if_pos h]

theorem mathRound_fin (x : ℚ) :
    mathRound (some (Value.fin x)) = some (Value.fin ((⌊x + 1 / 2⌋ : ℤ) : ℚ)) := rfl

/-- The quotient by one crore of a price below one crore is a Number below 1. -/
theorem crores_lt_one (p : ℤ) (h0 : 0 ≤ p) (h : p < 10000000) :
    (Value.fin 1).leb (round64 ((p : ℚ) / 10000000)) = false := by
  have h0q : (0 : ℚ) ≤ p := by exact_mod_cast h0
  have hq : (p : ℚ) ≤ 9999999 := by exact_mod_cast (by omega : p ≤ 9999999)
  have anchor := round64_dyadic (2 ^ 24 - 1) (-24) (by norm_num) (by norm_num) (by norm_num)
  obtain ⟨c, hc, _, hc1, _⟩ := round64_fin_between (x := (p : ℚ) / 10000000)
    (by positivity) (by
      rw [div_le_iff₀ (by norm_num)]
      norm_num
      linarith) round64_zero anchor
  rw [hc]
  simp only [Value.leb, decide_eq_false_iff_not, not_le]
  norm_num at hc1
  linarith

/-- The quotient by one lakh of a price below one lakh is a Number below 1. -/
theorem lakhs_lt_one (p : ℤ) (h0 : 0 ≤ p) (h : p < 100000) :
    (Value.fin 1).leb (round64 ((p : ℚ) / 100000)) = false := by
  have h0q : (0 : ℚ) ≤ p := by exact_mod_cast h0
  have hq : (p : ℚ) ≤ 99999 := by exact_mod_cast (by omega : p ≤ 99999)
  have anchor := round64_dyadic (2 ^ 17 - 1) (-17) (by norm_num) (by norm_num) (by norm_num)
  obtain ⟨c, hc, _, hc1, _⟩ := round64_fin_between (x := (p : ℚ) / 100000)
    (by positivity) (by
      rw [div_le_iff₀ (by norm_num)]
      norm_num
      linarith) round64_zero anchor
  rw [hc]
  simp only [Value.leb, decide_eq_false_iff_not, not_le]
  norm_num at hc1
  linarith

/-- The quotient by one lakh of a price from one lakh up to one crore: a Number of at least
1 that `Math.round` takes to the nearest integer of the exact quotient. -/
theorem lakhs_rounded (p : ℤ) (h1 : 100000 ≤ p) (h2 : p < 10000000) :
    ∃ l : ℚ, round64 ((p : ℚ) / 100000) = Value.fin l ∧ 1 ≤ l ∧
      ⌊l + 1 / 2⌋ = (p + 50000) / 100000 := by
  obtain ⟨N, hN⟩ : ∃ N : ℤ, N = (p + 50000) / 100000 := ⟨_, rfl⟩
  have hNlo : 100000 * N ≤ p + 50000 := by omega
  have hNhi : p + 50001 ≤ 100000 * N + 100000 := by omega
  have hN1 : 1 ≤ N := by omega
  have hN2 : N ≤ 100 := by omega
  have hNloq : (100000 : ℚ) * N ≤ p + 50000 := by exact_mod_cast hNlo
  have hNhiq : (p : ℚ) + 50001 ≤ 100000 * N + 100000 := by exact_mod_cast hNhi
  have hN1q : (1 : ℚ) ≤ N := by exact_mod_cast hN1
  have alo := round64_dyadic (2 * N - 1) (-1)
    (by rw [abs_le]; constructor <;> norm_num <;> omega) (by norm_num) (by norm_num)
  have ahi := round64_dyadic ((2 * N + 1) * 2 ^ 16 - 1) (-17)
    (by rw [abs_le]; constructor <;> norm_num <;> omega) (by norm_num) (by norm_num)
  obtain ⟨l, hl, hl0, hl1, _⟩ := round64_fin_between (x := (p : ℚ) / 100000)
    (by
      rw [le_div_iff₀ (by norm_num)]
      push_cast
      norm_num
      linarith) (by
      rw [div_le_iff₀ (by norm_num)]
      push_cast
      norm_num
      linarith) alo ahi
  push_cast at hl0 hl1
  norm_num at hl0 hl1
  have hp1 : (1 : ℚ) ≤ (p : ℚ) / 100000 := by
    rw [le_div_iff₀ (by norm_num)]
    have : ((100000 : ℤ) : ℚ) ≤ p := by exact_mod_cast h1
    push_cast at this
    linarith
  have hge := round64_mono hp1
  rw [round64_one, hl] at hge
  refine ⟨l, hl, (fin_le_fin_iff _ _).mp hge, ?_⟩
  rw [← hN, Int.floor_eq_iff]
  constructor <;> linarith

theorem formatPrice_lakh (p : Int) (h1 : 100000 ≤ p) (h2 : p < 10000000) :
    formatPrice p = "₹" ++ toString ((p + 50000) / 100000) ++ " Lakh" := by
  have hm : p % 10000000 = p := by omega
  obtain ⟨l, hl, hl1, hfloor⟩ := lakhs_rounded p h1 h2
  rw [formatPrice_eq p (by omega) (by omega), hm,
    if_neg (by rw [crores_lt_one p (by omega) h2]; exact Bool.false_ne_true), hl,
    if_pos (by simpa [Value.leb] using hl1), mathRound_fin, hfloor,
    roundedToString_int _ (by
      have : (2 : ℕ) ^ 53 = 9007199254740992 := by norm_num
      omega)]

theorem formatPrice_small (p : Int) (h1 : 0 ≤ p) (h2 : p < 100000) :
    formatPrice p = "₹" ++ toLocaleStringEnIN p := by
  have hm : p % 10000000 = p := by omega
  rw [formatPrice_eq p h1 (by omega), hm,
    if_neg (by rw [crores_lt_one p h1 (by omega)]; exact Bool.false_ne_true),
    if_neg (by rw [lakhs_lt_one p h1 h2]; exact Bool.false_ne_true)]

theorem groupIndian_short (ds : List Char) (h : ds.length ≤ 5) :
    groupIndian ds = commaBeforeLastThree ds := by
  rcases ds with _ | ⟨a, _ | ⟨b, _ | ⟨c, _ | ⟨d, _ | ⟨e, _ | ⟨g, t⟩⟩⟩⟩⟩⟩
  · rfl
  · rfl
  · rfl
  · rfl
  · simp [groupIndian, groupPairs, commaBeforeLastThree]
  · simp [groupIndian, groupPairs, commaBeforeLastThree]
  · simp at h

theorem toDigits_length_le_five (n : Nat) (h : n < 100000) :
    (Nat.toDigits 10 n).length ≤ 5 :=
  Nat.repr_length n 5 (by decide) (by omega)

theorem toLocaleStringEnIN_small (p : Int) (h1 : 0 ≤ p) (h2 : p < 100000) :
    toLocaleStringEnIN p = String.mk (commaBeforeLastThree (toString p.toNat).data) := by
  unfold toLocaleStringEnIN numberDigits
  have hn : p.natAbs = p.toNat := by omega
  have h53 : p.toNat ≤ 2 ^ 53 := by
    have : (2 : ℕ) ^ 53 = 9007199254740992 := by norm_num
    omega
  rw [if_neg (by omega), String.empty_append, hn, if_pos h53,
    groupIndian_short _ (toDigits_length_le_five _ (by omega))]
  rfl

/-- C6. For an integer price from one lakh up to, not including, one crore, `formatPrice`
returns `₹N Lakh` with `N` the price divided by 100000 and rounded to the nearest integer;
for an integer price from 0 up to, not including, one lakh it returns `₹` followed by the
digits of the price with the grouping of the locale `en-IN`, a comma before the last three
digits when there are more than three; `formatPrice 500000` is `₹5 Lakh` and
`formatPrice 50000` is `₹50,000`. -/
theorem formatPrice_lakh_or_less (price : Int) (h0 : 0 ≤ price) (h : price < 10000000) :
    (100000 ≤ price →
      ∃ N : Int, formatPrice price = "₹" ++ toString N ++ " Lakh" ∧
        N = round ((price : ℚ) / 100000) ∧ |(N : ℚ) - (price : ℚ) / 100000| ≤ 1 / 2) ∧
    (price < 100000 →
      formatPrice price = "₹" ++ toLocaleStringEnIN price ∧
      toLocaleStringEnIN price
        = String.mk (commaBeforeLastThree (toString price.toNat).data)) ∧
    formatPrice 500000 = "₹5 Lakh" ∧ formatPrice 50000 = "₹50,000" := by
  refine ⟨fun h1 => ?_, fun h1 => ?_, ?_, ?_⟩
  · have hlo : (100000 : Int) * ((price + 50000) / 100000) ≤ price + 50000 := by omega
    have hhi : price + 50000 < 100000 * ((price + 50000) / 100000) + 100000 := by omega
    have hlo' : (100000 : ℚ) * (((price + 50000) / 100000 : Int) : ℚ) ≤ price + 50000 := by
      exact_mod_cast hlo
    have hhi' : (price : ℚ) + 50000
        < 100000 * (((price + 50000) / 100000 : Int) : ℚ) + 100000 := by
      exact_mod_cast hhi
    refine ⟨(price + 50000) / 100000, formatPrice_lakh price h1 h, ?_, ?_⟩
    · rw [round_eq, eq_comm, Int.floor_eq_iff]
      constructor <;> linarith
    · rw [abs_le]
      constructor <;> linarith
  · exact ⟨formatPrice_small price h0 h1, toLocaleStringEnIN_small price h0 h1⟩
  · rw [formatPrice_lakh 500000 (by decide) (by decide)]
    decide
  · rw [formatPrice_small 50000 (by decide) (by decide)]
    decide

theorem formatPrice_lakh_or_less_witness :
    (0 : Int) ≤ 9950000 ∧ (9950000 : Int) < 10000000 ∧
    ((100000 : Int) ≤ 9950000 →
      ∃ N : Int, formatPrice 9950000 = "₹" ++ toString N ++ " Lakh" ∧
        N = round (((9950000 : Int) : ℚ) / 100000) ∧
        |(N : ℚ) - ((9950000 : Int) : ℚ) / 100000| ≤ 1 / 2) ∧
    ((9950000 : Int) < 100000 →
      formatPrice 9950000 = "₹" ++ toLocaleStringEnIN 9950000 ∧
      toLocaleStringEnIN 9950000
        = String.mk (commaBeforeLastThree (toString (9950000 : Int).toNat).data)) ∧
    formatPrice 500000 = "₹5 Lakh" ∧ formatPrice 50000 = "₹50,000" :=
  ⟨by decide, by decide, formatPrice_lakh_or_less 9950000 (by decide) (by decide)⟩

theorem round64_two_pow_30 : round64 1073741824 = Value.fin 1073741824 := by decide!

/-- The quotient by one crore of a price from one crore up to `2^53`: a Number of at least
1, within `2^-24` of the exact quotient. -/
theorem crores_value (p : ℤ) (h1 : 10000000 ≤ p) (h2 : p ≤ 9007199254740992) :
    ∃ c : ℚ, round64 ((p : ℚ) / 10000000) = Value.fin c ∧ 1 ≤ c ∧ c ≤ 1073741824 ∧
      |c - (p : ℚ) / 10000000| ≤ 1 / 16777216 := by
  have h1q : (10000000 : ℚ) ≤ p := by exact_mod_cast h1
  have h2q : (p : ℚ) ≤ 9007199254740992 := by exact_mod_cast h2
  have hlo : (1 : ℚ) ≤ (p : ℚ) / 10000000 := by
    rw [le_div_iff₀ (by norm_num)]
    linarith
  have hhi : (p : ℚ) / 10000000 ≤ 1073741824 := by
    rw [div_le_iff₀ (by norm_num)]
    linarith
  obtain ⟨c, hc, hc0, hc1, hcfl⟩ :=
    round64_fin_between hlo hhi round64_one round64_two_pow_30
  have err := fl_sub_le_of_lt ((p : ℚ) / 10000000) 29 (by norm_num)
    (by
      rw [abs_of_nonneg (by linarith)]
      norm_num
      rw [div_lt_iff₀ (by norm_num)]
      linarith)
  rw [← hcfl] at err
  norm_num at err
  exact ⟨c, hc, hc0, hc1, err⟩

/-- The lakh remainder of a price that is not a whole number of crores is a Number above
0. -/
theorem lakhs_pos (m : ℤ) (h1 : 0 < m) (h2 : m < 10000000) :
    (Value.fin 0).ltb (round64 ((m : ℚ) / 100000)) = true := by
  have h1q : (1 : ℚ) ≤ m := by exact_mod_cast (by omega : (1 : ℤ) ≤ m)
  have h2q : (m : ℚ) ≤ 10000000 := by exact_mod_cast (by omega : m ≤ 10000000)
  have anchor := round64_dyadic 1 (-17) (by norm_num) (by norm_num) (by norm_num)
  obtain ⟨l, hl, hl0, _, _⟩ := round64_fin_between (x := (m : ℚ) / 100000)
    (by
      rw [le_div_iff₀ (by norm_num)]
      norm_num
      linarith) (by
      rw [div_le_iff₀ (by norm_num)]
      linarith) anchor round64_hundred
  rw [hl]
  simp only [Value.ltb, decide_eq_true_eq]
  norm_num at hl0
  linarith

theorem formatPrice_crore_exact (p : Int) (h : 10000000 ≤ p) (hmax : p ≤ 9007199254740992)
    (hr : p % 10000000 = 0) :
    formatPrice p = "₹" ++ toString (p / 10000000) ++ " Cr" := by
  have hk : (p : ℚ) / 10000000 = ((p / 10000000 : ℤ) : ℚ) := by
    have h1 : p = 10000000 * (p / 10000000) := by omega
    rw [div_eq_iff (by norm_num)]
    have : (p : ℚ) = ((10000000 * (p / 10000000) : ℤ) : ℚ) := by rw [← h1]
    rw [this]
    push_cast
    ring
  have hround : round64 (((p / 10000000 : ℤ) : ℚ)) = Value.fin ((p / 10000000 : ℤ) : ℚ) :=
    round64_intCast _ (by rw [abs_le]; constructor <;> norm_num <;> omega)
  have hfloor : ⌊((p / 10000000 : ℤ) : ℚ) + 1 / 2⌋ = p / 10000000 := by
    rw [Int.floor_eq_iff]
    constructor <;> linarith
  rw [formatPrice_eq p (by omega) hmax, hr, hk, hround,
    if_pos (by
      simp only [Value.leb, decide_eq_true_eq]
      exact_mod_cast (by omega : (1 : ℤ) ≤ p / 10000000)),
    if_neg (by
      have : round64 (((0 : ℤ) : ℚ) / 100000) = Value.fin 0 := by
        rw [Int.cast_zero, zero_div, round64_zero]
      rw [this]
      simp [Value.ltb]),
    mathRound_fin, hfloor,
    roundedToString_int _ (by
      have : (2 : ℕ) ^ 53 = 9007199254740992 := by norm_num
      omega)]

/-- The text of `toFixed(1)` for a Number from 1 up to `2^30`. -/
theorem toFixed1_of_pos (c : ℚ) (h1 : 1 ≤ c) (h2 : c ≤ 1073741824) :
    toFixed1 (some (Value.fin c)) =
      toString ((⌊c * 10 + 1 / 2⌋).toNat / 10) ++ "." ++
        toString ((⌊c * 10 + 1 / 2⌋).toNat % 10) := by
  have habs : |c| = c := abs_of_nonneg (by linarith)
  have hbig : ¬ ((10 : ℚ) ^ 21 ≤ c) := by
    rw [not_le]
    calc c ≤ 1073741824 := h2
      _ < (10 : ℚ) ^ 21 := by norm_num
  have hneg : ¬ (c < 0) := by linarith
  unfold toFixed1
  simp only [habs, if_neg hbig, if_neg hneg, String.empty_append]

theorem formatPrice_crore_decimal (p : Int) (h : 10000000 ≤ p) (hmax : p ≤ 9007199254740992)
    (hr : p % 10000000 ≠ 0) :
    ∃ n : ℕ, formatPrice p = "₹" ++ toString (n / 10) ++ "." ++ toString (n % 10) ++ " Cr" ∧
      1000000 * (n : ℤ) ≤ p + 500000 ∧ p - 500000 ≤ 1000000 * (n : ℤ) := by
  obtain ⟨c, hc, hc1, hc2, herr⟩ := crores_value p h hmax
  have hN0 : 0 ≤ ⌊c * 10 + 1 / 2⌋ := Int.floor_nonneg.mpr (by linarith)
  have hcast : ((⌊c * 10 + 1 / 2⌋.toNat : ℕ) : ℤ) = ⌊c * 10 + 1 / 2⌋ := Int.toNat_of_nonneg hN0
  have a1 : ((⌊c * 10 + 1 / 2⌋ : ℤ) : ℚ) ≤ c * 10 + 1 / 2 := Int.floor_le _
  have a2 : c * 10 + 1 / 2 < ((⌊c * 10 + 1 / 2⌋ : ℤ) : ℚ) + 1 := Int.lt_floor_add_one _
  rw [abs_le] at herr
  refine ⟨(⌊c * 10 + 1 / 2⌋).toNat, ?_, ?_, ?_⟩
  · rw [formatPrice_eq p (by omega) hmax, hc,
      if_pos (by simpa [Value.leb] using hc1),
      if_pos (lakhs_pos _ (by omega) (by omega)), toFixed1_of_pos c hc1 hc2]
    simp only [String.append_assoc]
  · rw [hcast]
    have : ((1000000 * ⌊c * 10 + 1 / 2⌋ : ℤ) : ℚ) < ((p + 500001 : ℤ) : ℚ) := by
      push_cast
      linarith
    have := Int.cast_lt.mp this
    omega
  · rw [hcast]
    have : ((p - 500001 : ℤ) : ℚ) < ((1000000 * ⌊c * 10 + 1 / 2⌋ : ℤ) : ℚ) := by
      push_cast
      linarith
    have := Int.cast_lt.mp this
    omega

/-- C5 (the claim fails). The price `11500000` is `1.15` crore, halfway between `1.1` and
`1.2`; rounding it to one decimal gives `1.2` (`round (11500000 / 1000000) = 12`), but
`formatPrice` returns `₹1.1 Cr`, because the binary64 quotient lies below `1.15`.  At
`12500000` the same halfway case goes up, to `₹1.3 Cr`.  For the price `2^77 * 5^7`, a
whole number of crores that is a Number, it returns the exponent form
`₹1.1805916207174113e+21 Cr`, not the digits of `2^70`. -/
theorem formatPrice_tie_rounds_down :
    (10000000 : ℤ) ≤ 11500000 ∧ (11500000 : ℤ) % 10000000 ≠ 0 ∧
    formatPrice 11500000 = "₹1.1 Cr" ∧ round ((11500000 : ℚ) / 1000000) = 12 ∧
    formatPrice 12500000 = "₹1.3 Cr" ∧
    (2 ^ 77 * 5 ^ 7 : ℤ) % 10000000 = 0 ∧ (2 ^ 77 * 5 ^ 7 : ℤ) / 10000000 = 2 ^ 70 ∧
    ofInt (2 ^ 77 * 5 ^ 7) = some (Value.fin ((2 ^ 77 * 5 ^ 7 : ℤ) : ℚ)) ∧
    formatPrice (2 ^ 77 * 5 ^ 7) = "₹1.1805916207174113e+21 Cr" ∧
    toString ((2 ^ 77 * 5 ^ 7 : ℤ) / 10000000) = "1180591620717411303424" := by
  refine ⟨by decide, by decide, by decide!, ?_, by decide!, by decide!, by decide!, by decide!,
    by decide!, by decide!⟩
  rw [round_eq, Int.floor_eq_iff]
  norm_num

/-- C5 (amended). For an integer price from one crore up to `2^53`, `formatPrice` returns
`₹N Cr` with `N = price / 10000000` when the price is a whole number of crores, and
otherwise `₹X.Y Cr` with one decimal digit `Y`, where `X.Y` is a one-decimal value nearest
to `price / 10000000`: it is the quotient rounded to one decimal unless the quotient lies
exactly halfway between two one-decimal values, and then it is one of the two.
`formatPrice 12345678` is `₹1.2 Cr` and `formatPrice 10000000` is `₹1 Cr`. -/
theorem formatPrice_crore (price : Int) (h : 10000000 ≤ price)
    (hmax : price ≤ 9007199254740992) :
    (price % 10000000 = 0 →
      formatPrice price = "₹" ++ toString (price / 10000000) ++ " Cr") ∧
    (price % 10000000 ≠ 0 →
      ∃ X Y : Nat, Y < 10 ∧
        formatPrice price = "₹" ++ toString X ++ "." ++ toString Y ++ " Cr" ∧
        |(X : ℚ) + (Y : ℚ) / 10 - (price : ℚ) / 10000000| ≤ 1 / 20 ∧
        (price % 1000000 ≠ 500000 →
          ((10 * X + Y : ℕ) : ℤ) = round ((price : ℚ) / 1000000))) ∧
    formatPrice 12345678 = "₹1.2 Cr" ∧ formatPrice 10000000 = "₹1 Cr" := by
  refine ⟨formatPrice_crore_exact price h hmax, fun hr => ?_, by decide!, by decide!⟩
  obtain ⟨n, hfmt, hlo, hhi⟩ := formatPrice_crore_decimal price h hmax hr
  have hsplitN : 10 * (n / 10) + n % 10 = n := Nat.div_add_mod n 10
  have hsplit : ((n / 10 : Nat) : ℚ) + ((n % 10 : Nat) : ℚ) / 10 = (n : ℚ) / 10 := by
    have : (n : ℚ) = ((10 * (n / 10) + n % 10 : Nat) : ℚ) := by rw [hsplitN]
    rw [this]
    push_cast
    ring
  have hlo' : (1000000 : ℚ) * n ≤ price + 500000 := by exact_mod_cast hlo
  have hhi' : (price : ℚ) - 500000 ≤ 1000000 * n := by exact_mod_cast hhi
  refine ⟨n / 10, n % 10, Nat.mod_lt _ (by decide), hfmt, ?_, fun htie => ?_⟩
  · rw [hsplit, abs_le]
    constructor <;> linarith
  · rw [hsplitN, round_eq, eq_comm, Int.floor_eq_iff]
    have hhi2 : price - 500000 < 1000000 * (n : ℤ) := by omega
    have hhi2' : (price : ℚ) - 500000 < 1000000 * n := by exact_mod_cast hhi2
    push_cast
    constructor <;> linarith

theorem formatPrice_crore_witness :
    (10000000 : Int) ≤ 25000000 ∧ (25000000 : Int) ≤ 9007199254740992 ∧
    ((25000000 : Int) % 10000000 = 0 →
      formatPrice 25000000 = "₹" ++ toString ((25000000 : Int) / 10000000) ++ " Cr") ∧
    ((25000000 : Int) % 10000000 ≠ 0 →
      ∃ X Y : Nat, Y < 10 ∧
        formatPrice 25000000 = "₹" ++ toString X ++ "." ++ toString Y ++ " Cr" ∧
        |(X : ℚ) + (Y : ℚ) / 10 - ((25000000 : Int) : ℚ) / 10000000| ≤ 1 / 20 ∧
        ((25000000 : Int) % 1000000 ≠ 500000 →
          ((10 * X + Y : ℕ) : ℤ) = round (((25000000 : Int) : ℚ) / 1000000))) ∧
    formatPrice 12345678 = "₹1.2 Cr" ∧ formatPrice 10000000 = "₹1 Cr" :=
  ⟨by decide, by decide, formatPrice_crore 25000000 (by decide) (by decide)⟩
